import Mathlib

/-!
Verification of the buggu PDF-to-JSON pipeline.

Shallow embedding of the repository's core modules:
- `src/utils/jsonUtils.js` (`sanitizeJSON`, `repairJSON`) together with the
  fragment of `JSON.parse` / `JSON.stringify` the recovery layer relies on,
- `src/utils/pdfProcessor.js` (`processFiles`, `convertPdfToImages`,
  `validateFile`),
- `src/utils/chromeAI.js` (`extractJSONFromImages`, `createSessionIfNeeded`,
  `resetSession`).

Modelling conventions: JavaScript strings are Lean `String`s (lists of unicode
scalars); JSON numbers are modelled as integers (the fragment the claims
exercise; fractional/exponent literals are outside the embedding and make the
embedded parser reject, never misparse); fallible code returns `Except`;
the mutable module state of `chromeAI.js` is passed explicitly.
-/

namespace Buggu

/-- A JSON value as produced by `JSON.parse` in the modelled fragment.
Objects are insertion-ordered association lists (JavaScript object key order),
numbers are integers. -/
inductive JsValue where
  | null : JsValue
  | bool (b : Bool) : JsValue
  | num (n : Int) : JsValue
  | str (s : String) : JsValue
  | arr (elems : List JsValue) : JsValue
  | obj (fields : List (String × JsValue)) : JsValue

/-- JSON whitespace accepted between tokens by `JSON.parse`:
space, tab, line feed, carriage return (ECMA-404). -/
def isJsonWs (c : Char) : Bool :=
  c = ' ' || c = '\t' || c = '\n' || c = '\r'

/-- Drop leading JSON whitespace. -/
def skipJsonWs : List Char → List Char
  | [] => []
  | c :: cs => if isJsonWs c then skipJsonWs cs else c :: cs

/-- Decimal digit test. -/
def isDigitChar (c : Char) : Bool := '0' ≤ c && c ≤ '9'

/-- Value of a decimal digit character. -/
def digitVal (c : Char) : Nat := c.toNat - 48

/-- Split off the maximal leading run of decimal digits. -/
def takeDigitRun : List Char → List Char × List Char
  | [] => ([], [])
  | c :: cs =>
    if isDigitChar c then
      let p := takeDigitRun cs
      (c :: p.1, p.2)
    else ([], c :: cs)

/-- Numeric value of a digit string (most significant first). -/
def digitsToNat (ds : List Char) : Nat :=
  ds.foldl (fun a c => 10 * a + digitVal c) 0

/-- Hexadecimal digit value, accepting both cases as `JSON.parse` does. -/
def hexDigitVal (c : Char) : Option Nat :=
  if '0' ≤ c && c ≤ '9' then some (c.toNat - 48)
  else if 'a' ≤ c && c ≤ 'f' then some (c.toNat - 87)
  else if 'A' ≤ c && c ≤ 'F' then some (c.toNat - 55)
  else none

mutual

/-- Parse the body of a JSON string literal (after the opening quote),
returning the decoded characters and the input after the closing quote.
Escapes follow `JSON.parse`; unescaped control characters are rejected;
`\uXXXX` is modelled for non-surrogate scalar values (surrogate pairs are
outside the embedded fragment and rejected). -/
def parseStrChars : List Char → Option (List Char × List Char)
  | [] => none
  | c :: rest =>
    if c = '"' then some ([], rest)
    else if c = '\\' then parseEsc rest
    else if c.toNat < 32 then none
    else
      match parseStrChars rest with
      | some p => some (c :: p.1, p.2)
      | none => none

/-- Handle the input after a backslash inside a string literal. -/
def parseEsc : List Char → Option (List Char × List Char)
  | 'u' :: h1 :: h2 :: h3 :: h4 :: rest2 =>
    match hexDigitVal h1, hexDigitVal h2, hexDigitVal h3, hexDigitVal h4 with
    | some a, some b, some x, some y =>
      let n := 4096 * a + 256 * b + 16 * x + y
      if 55296 ≤ n && n ≤ 57343 then none
      else
        match parseStrChars rest2 with
        | some p => some (Char.ofNat n :: p.1, p.2)
        | none => none
    | _, _, _, _ => none
  | e :: rest2 =>
    let decoded : Option Char :=
      if e = '"' then some '"'
      else if e = '\\' then some '\\'
      else if e = '/' then some '/'
      else if e = 'b' then some '\x08'
      else if e = 'f' then some '\x0c'
      else if e = 'n' then some '\n'
      else if e = 'r' then some '\r'
      else if e = 't' then some '\t'
      else none
    match decoded with
    | none => none
    | some d =>
      match parseStrChars rest2 with
      | some p => some (d :: p.1, p.2)
      | none => none
  | [] => none

end

/-- Parse a JSON integer literal (optional minus, `0` or a nonzero-led digit
run). Fractional and exponent parts are outside the embedded fragment: a
following `.` or `e` is left in the remaining input and makes the caller reject,
matching the direction in which `JSON.parse` would also fail on the
surrounding grammar for the claims exercised here. -/
def parseIntNat : List Char → Option (Nat × List Char)
  | [] => none
  | c :: rest =>
    if c = '0' then some (0, rest)
    else if isDigitChar c then
      let p := takeDigitRun rest
      some (digitsToNat (c :: p.1), p.2)
    else none

/-- Parse an optionally signed JSON integer literal. -/
def parseIntLit : List Char → Option (Int × List Char)
  | [] => none
  | c :: rest =>
    if c = '-' then
      match parseIntNat rest with
      | some (n, r) => some (-(n : Int), r)
      | none => none
    else
      match parseIntNat (c :: rest) with
      | some (n, r) => some ((n : Int), r)
      | none => none

/-- JavaScript object field assignment: a later duplicate key overwrites the
value in place (key keeps its first position), a new key is appended. -/
def assignField (acc : List (String × JsValue)) (k : String) (v : JsValue) :
    List (String × JsValue) :=
  if acc.any (fun p => p.1 = k) then
    acc.map (fun p => if p.1 = k then (k, v) else p)
  else acc ++ [(k, v)]

/-- Build a JavaScript object from the textual field sequence. -/
def buildObj (ps : List (String × JsValue)) : List (String × JsValue) :=
  ps.foldl (fun a p => assignField a p.1 p.2) []

mutual

/-- Fuel-indexed recursive-descent parser for one JSON value, mirroring
`JSON.parse` on the embedded fragment. Leading whitespace is skipped. -/
def parseVal : Nat → List Char → Option (JsValue × List Char)
  | 0, _ => none
  | Nat.succ fuel, cs =>
    match skipJsonWs cs with
    | 'n' :: 'u' :: 'l' :: 'l' :: rest => some (.null, rest)
    | 't' :: 'r' :: 'u' :: 'e' :: rest => some (.bool true, rest)
    | 'f' :: 'a' :: 'l' :: 's' :: 'e' :: rest => some (.bool false, rest)
    | '"' :: rest =>
      match parseStrChars rest with
      | some (body, r) => some (.str (String.mk body), r)
      | none => none
    | '\x7b' :: rest => parseObjBody fuel rest
    | '[' :: rest => parseArrBody fuel rest
    | other =>
      match parseIntLit other with
      | some (n, r) => some (.num n, r)
      | none => none

/-- Parse an object body after the opening brace. -/
def parseObjBody : Nat → List Char → Option (JsValue × List Char)
  | 0, _ => none
  | Nat.succ fuel, cs =>
    match skipJsonWs cs with
    | '\x7d' :: rest => some (.obj [], rest)
    | other =>
      match parseMembers fuel other with
      | some (ps, r) => some (.obj (buildObj ps), r)
      | none => none

/-- Parse one or more `"key": value` members, returning the textual field
sequence and the input after the closing brace. -/
def parseMembers : Nat → List Char → Option (List (String × JsValue) × List Char)
  | 0, _ => none
  | Nat.succ fuel, cs =>
    match skipJsonWs cs with
    | '"' :: rest =>
      match parseStrChars rest with
      | none => none
      | some (kcs, r1) =>
        match skipJsonWs r1 with
        | ':' :: r2 =>
          match parseVal fuel r2 with
          | none => none
          | some (v, r3) =>
            match skipJsonWs r3 with
            | ',' :: r4 =>
              match parseMembers fuel r4 with
              | some (ps, r) => some ((String.mk kcs, v) :: ps, r)
              | none => none
            | '\x7d' :: r4 => some ([(String.mk kcs, v)], r4)
            | _ => none
        | _ => none
    | _ => none

/-- Parse an array body after the opening bracket. -/
def parseArrBody : Nat → List Char → Option (JsValue × List Char)
  | 0, _ => none
  | Nat.succ fuel, cs =>
    match skipJsonWs cs with
    | ']' :: rest => some (.arr [], rest)
    | other =>
      match parseElems fuel other with
      | some (vs, r) => some (.arr vs, r)
      | none => none

/-- Parse one or more array elements, returning them and the input after the
closing bracket. -/
def parseElems : Nat → List Char → Option (List JsValue × List Char)
  | 0, _ => none
  | Nat.succ fuel, cs =>
    match parseVal fuel cs with
    | none => none
    | some (v, r1) =>
      match skipJsonWs r1 with
      | ',' :: r2 =>
        match parseElems fuel r2 with
        | some (vs, r) => some (v :: vs, r)
        | none => none
      | ']' :: r2 => some ([v], r2)
      | _ => none

end

/-- The embedded `JSON.parse` on character lists: parse one value and require
only whitespace after it. The fuel `2·length + 8` over-approximates the
number of recursive-call steps any input of this length can trigger, so fuel
exhaustion is unreachable and failure is always a grammar failure. -/
def parseJsonChars (cs : List Char) : Option JsValue :=
  match parseVal (2 * cs.length + 8) cs with
  | some (v, rest) => if (skipJsonWs rest).isEmpty then some v else none
  | none => none

/-- The embedded `JSON.parse`. -/
def parseJsonStr (s : String) : Option JsValue :=
  parseJsonChars s.data

/-- Lowercase hexadecimal digit, as used by `JSON.stringify` unicode escapes. -/
def hexChar (n : Nat) : Char :=
  if n < 10 then Char.ofNat (48 + n) else Char.ofNat (87 + n)

/-- Escape one character the way `JSON.stringify` does: quote, backslash and
the named control escapes, other control characters as `\u00xx`, everything
else literal. -/
def escChar (c : Char) : List Char :=
  if c = '"' then ['\\', '"']
  else if c = '\\' then ['\\', '\\']
  else if c = '\x08' then ['\\', 'b']
  else if c = '\x0c' then ['\\', 'f']
  else if c = '\n' then ['\\', 'n']
  else if c = '\r' then ['\\', 'r']
  else if c = '\t' then ['\\', 't']
  else if c.toNat < 32 then
    ['\\', 'u', '0', '0', hexChar (c.toNat / 16), hexChar (c.toNat % 16)]
  else [c]

/-- Escape a string body for `JSON.stringify`. -/
def escBody : List Char → List Char
  | [] => []
  | c :: cs => escChar c ++ escBody cs

/-- Decimal digits of a natural number (fuel-indexed so that it reduces in the
kernel; `natChars` always supplies sufficient fuel). -/
def natCharsAux : Nat → Nat → List Char
  | 0, _ => []
  | Nat.succ fuel, n =>
    if n < 10 then [Char.ofNat (48 + n)]
    else natCharsAux fuel (n / 10) ++ [Char.ofNat (48 + n % 10)]

/-- Canonical decimal digits of a natural number. -/
def natChars (n : Nat) : List Char := natCharsAux (n + 1) n

/-- Canonical decimal rendering of an integer, as `JSON.stringify` prints the
integral numbers of the embedded fragment. -/
def intChars (n : Int) : List Char :=
  if n < 0 then '-' :: natChars n.natAbs else natChars n.toNat

mutual

/-- The embedded `JSON.stringify` (default spacing: none) on the modelled
fragment, producing the serialized character list. -/
def jsonStringify : JsValue → List Char
  | .null => 'n' :: ['u', 'l', 'l']
  | .bool true => 't' :: ['r', 'u', 'e']
  | .bool false => 'f' :: ['a', 'l', 's', 'e']
  | .num n => intChars n
  | .str s => '"' :: escBody s.data ++ ['"']
  | .arr xs => '[' :: stringifyElems xs ++ [']']
  | .obj fs => '\x7b' :: stringifyFields fs ++ ['\x7d']

/-- Comma-joined serialization of array elements. -/
def stringifyElems : List JsValue → List Char
  | [] => []
  | [v] => jsonStringify v
  | v :: rest => jsonStringify v ++ ',' :: stringifyElems rest

/-- Comma-joined serialization of object fields. -/
def stringifyFields : List (String × JsValue) → List Char
  | [] => []
  | [(k, v)] => '"' :: escBody k.data ++ '"' :: ':' :: jsonStringify v
  | (k, v) :: rest =>
    ('"' :: escBody k.data ++ '"' :: ':' :: jsonStringify v) ++ ',' :: stringifyFields rest

end

/-- The embedded `JSON.stringify` as a string. -/
def stringifyStr (v : JsValue) : String := String.mk (jsonStringify v)

/-! ### jsonUtils.js: sanitizeJSON and repairJSON -/

/-- The character class of the JavaScript regex `\s` and of `String.trim`. -/
def isJsWs (c : Char) : Bool :=
  c = ' ' || c = '\t' || c = '\n' || c = '\r' || c = '\x0b' || c = '\x0c'
    || c = '\u00a0' || c = '\u1680' || ('\u2000' ≤ c && c ≤ '\u200a')
    || c = '\u2028' || c = '\u2029' || c = '\u202f' || c = '\u205f'
    || c = '\u3000' || c = '\ufeff'

/-- Drop a maximal leading run of JavaScript whitespace (regex `\s*`). -/
def dropJsWsChars : List Char → List Char
  | [] => []
  | c :: cs => if isJsWs c then dropJsWsChars cs else c :: cs

/-- Case-insensitive prefix match (the regex `i` flag): the pattern is given
lowercase, input characters are lowercased for comparison. Returns the
remaining input after the matched prefix. -/
def matchCI : List Char → List Char → Option (List Char)
  | [], cs => some cs
  | _ :: _, [] => none
  | p :: ps, c :: cs => if c.toLower = p then matchCI ps cs else none

/-- The pattern of the regex `/```json\s*/gi` (backticks written escaped). -/
def fenceJsonPat : List Char := ['\x60', '\x60', '\x60', 'j', 's', 'o', 'n']

/-- The pattern of the regex `/```\s*/g`. -/
def fencePat : List Char := ['\x60', '\x60', '\x60']

/-- Global removal of `pat` followed by `\s*`, scanning left to right without
rescanning replacements — the semantics of `String.replace` with a global
regex and empty replacement. Fuel-indexed; every step consumes at least one
character, so `length + 1` fuel is always sufficient. -/
def stripFenceAux : Nat → List Char → List Char → List Char
  | 0, _, cs => cs
  | Nat.succ fuel, pat, cs =>
    match matchCI pat cs with
    | some rest => stripFenceAux fuel pat (dropJsWsChars rest)
    | none =>
      match cs with
      | [] => []
      | c :: cs' => c :: stripFenceAux fuel pat cs'

/-- Remove every occurrence of `pat` + trailing whitespace. -/
def stripFence (pat cs : List Char) : List Char :=
  stripFenceAux (cs.length + 1) pat cs

/-- The alternatives of the anchored prefix regex
`/^(Here's the JSON|Here is the JSON|JSON output|Output):\s*/gi`,
lowercased for case-insensitive matching. -/
def boilerAlts : List (List Char) :=
  [ ("here\x27s the json").data
  , ("here is the json").data
  , ("json output").data
  , ("output").data ]

/-- Try each alternative at the start of the input; on a match it must be
followed by a colon, then `\s*` is consumed — regex alternation with
backtracking. -/
def tryBoiler : List (List Char) → List Char → Option (List Char)
  | [], _ => none
  | p :: ps, cs =>
    match matchCI p cs with
    | some r =>
      match r with
      | ':' :: r2 => some (dropJsWsChars r2)
      | _ => tryBoiler ps cs
    | none => tryBoiler ps cs

/-- Remove the boilerplate prefix if present (the regex is anchored at the
string start, so it applies at most once despite the `g` flag). -/
def stripBoiler (cs : List Char) : List Char :=
  match tryBoiler boilerAlts cs with
  | some r => r
  | none => cs

/-- JavaScript `String.trim`. -/
def jsTrim (cs : List Char) : List Char :=
  ((cs.dropWhile isJsWs).reverse.dropWhile isJsWs).reverse

/-- JavaScript `String.indexOf` for a single character (`-1` when absent). -/
def jsIndexOf (cs : List Char) (c : Char) : Int :=
  match cs.findIdx? (fun x => x = c) with
  | some i => (i : Int)
  | none => -1

/-- JavaScript `String.lastIndexOf` for a single character. -/
def jsLastIndexOf (cs : List Char) (c : Char) : Int :=
  match cs.reverse.findIdx? (fun x => x = c) with
  | some i => (cs.length : Int) - 1 - (i : Int)
  | none => -1

/-- JavaScript `String.substring(s, e)` for `0 ≤ s ≤ e`. -/
def jsSubstring (cs : List Char) (s e : Nat) : List Char :=
  (cs.drop s).take (e - s)

/-- The embedding of `sanitizeJSON` from `src/utils/jsonUtils.js`: reject the
empty string, strip markdown code fences and known boilerplate prefixes, trim,
cut to the substring from the first opening brace/bracket to the last closing
brace/bracket, and require the result to start with a brace or bracket. -/
def sanitizeJSON (rawText : String) : Except String String :=
  if rawText = "" then .error "Empty response from AI model"
  else
    let c1 := stripFence fenceJsonPat rawText.data
    let c2 := stripFence fencePat c1
    let c3 := stripBoiler c2
    let cleaned := jsTrim c3
    let firstBrace := jsIndexOf cleaned '\x7b'
    let firstBracket := jsIndexOf cleaned '['
    let startIndex : Int :=
      if firstBrace != -1 && firstBracket != -1 then min firstBrace firstBracket
      else if firstBrace != -1 then firstBrace
      else if firstBracket != -1 then firstBracket
      else -1
    let endIndex : Int := max (jsLastIndexOf cleaned '\x7d') (jsLastIndexOf cleaned ']')
    let cut :=
      if startIndex != -1 && endIndex > startIndex then
        jsSubstring cleaned startIndex.toNat (endIndex.toNat + 1)
      else cleaned
    if cut.head? = some '\x7b' || cut.head? = some '[' then .ok (String.mk cut)
    else .error "AI response does not contain valid JSON"

/-- Global application of the regex `/,(\s*[}\]])/g` with replacement `$1`:
drop a comma when only whitespace separates it from a closing brace/bracket.
Fuel-indexed; every step consumes at least one character. -/
def stripCommasAux : Nat → List Char → List Char
  | 0, cs => cs
  | Nat.succ fuel, cs =>
    match cs with
    | [] => []
    | ',' :: rest =>
      let ws := rest.takeWhile isJsWs
      match rest.dropWhile isJsWs with
      | '\x7d' :: tail => ws ++ '\x7d' :: stripCommasAux fuel tail
      | ']' :: tail => ws ++ ']' :: stripCommasAux fuel tail
      | _ => ',' :: stripCommasAux fuel rest
    | c :: rest => c :: stripCommasAux fuel rest

/-- Remove trailing commas before closing braces/brackets. -/
def stripTrailingCommas (s : String) : String :=
  String.mk (stripCommasAux (s.data.length + 1) s.data)

/-- The embedding of `repairJSON` from `src/utils/jsonUtils.js`: parse as-is;
on failure remove trailing commas and retry; otherwise fail with the fixed
message (the JavaScript throws `Error('Unable to repair JSON automatically')`;
the single-quote fix mentioned in its comments is not implemented there). -/
def repairJSON (jsonString : String) : Except String JsValue :=
  match parseJsonStr jsonString with
  | some v => .ok v
  | none =>
    let fixed := stripTrailingCommas jsonString
    match parseJsonStr fixed with
    | some v => .ok v
    | none => .error "Unable to repair JSON automatically"

/-- Boolean list-prefix test. -/
def isPrefixL : List Char → List Char → Bool
  | [], _ => true
  | _ :: _, [] => false
  | p :: ps, c :: cs => p = c && isPrefixL ps cs

/-- Boolean substring test on character lists. -/
def listContainsSub : List Char → List Char → Bool
  | [], pat => pat.isEmpty
  | c :: cs, pat => isPrefixL pat (c :: cs) || listContainsSub cs pat

/-- JavaScript `String.includes`. -/
def strContains (hay pat : String) : Bool := listContainsSub hay.data pat.data

/-- JavaScript `String.startsWith`. -/
def jsStartsWith (s p : String) : Bool := isPrefixL p.data s.data

/-! ### pdfProcessor.js -/

/-- The page budget constant `MAX_PAGES` of `src/utils/pdfProcessor.js`. -/
def MAX_PAGES : Nat := 3

/-- Result of successfully rendering and encoding one PDF page: the PNG blob
(an opaque token) and the 2x-scaled viewport dimensions. -/
structure PageOutcome where
  blob : String
  width : Nat
  height : Nat

/-- An uploaded `File`: name, declared media type (`file.type`), size in
bytes, its binary content as an opaque token, and — for PDFs — the behavior
of the rendering environment on it: `loadError` models a `getDocument`
failure, `pages` gives the render-and-encode outcome of each page in page
order (the page list length models `pdf.numPages`). -/
structure UploadedFile where
  name : String
  type : String
  size : Nat
  blob : String
  loadError : Option String
  pages : List (Except String PageOutcome)

/-- A Page Artifact as pushed by `processFiles` / `convertPdfToImages`:
image-file artifacts carry no `pageNum` or `dimensions` key. -/
structure Artifact where
  blob : String
  type : String
  name : String
  pageNum : Option Nat
  dimensions : Option (Nat × Nat)

/-- The page loop of `convertPdfToImages`: render pages sequentially starting
at `pageNum`; the first failure aborts the whole file with an error naming the
failing page number. -/
def renderPagesAux (fname : String) : Nat → List (Except String PageOutcome) →
    Except String (List Artifact)
  | _, [] => .ok []
  | pageNum, o :: rest =>
    match o with
    | .error e => .error ("Failed to render page " ++ toString pageNum ++ ": " ++ e)
    | .ok p =>
      match renderPagesAux fname (pageNum + 1) rest with
      | .error e => .error e
      | .ok tail =>
        .ok (⟨p.blob, "pdf", fname ++ " - Page " ++ toString pageNum,
              some pageNum, some (p.width, p.height)⟩ :: tail)

/-- Position (1-based page number) and message of the first failing entry of
a page-outcome list, starting the count at `k`. -/
def firstPageError : Nat → List (Except String PageOutcome) → Option (Nat × String)
  | _, [] => none
  | k, o :: rest =>
    match o with
    | .error e => some (k, e)
    | .ok _ => firstPageError (k + 1) rest

/-- The embedding of `convertPdfToImages`: load the document, then render
pages `1 .. min(numPages, MAX_PAGES)` in order. -/
def convertPdfToImages (pdfFile : UploadedFile) : Except String (List Artifact) :=
  match pdfFile.loadError with
  | some e => .error e
  | none => renderPagesAux pdfFile.name 1 (pdfFile.pages.take MAX_PAGES)

/-- One iteration of the `processFiles` loop: image types pass through as a
single artifact, PDFs are converted (errors wrapped with the
`PDF processing failed:` prefix), any other type is skipped with a console
warning. -/
def fileArtifacts (file : UploadedFile) : Except String (List Artifact) :=
  if jsStartsWith file.type "image/" then
    .ok [⟨file.blob, "image", file.name, none, none⟩]
  else if file.type = "application/pdf" then
    match convertPdfToImages file with
    | .ok pdfImages => .ok pdfImages
    | .error e => .error ("PDF processing failed: " ++ e)
  else .ok []

/-- The accumulation loop of `processFiles`: concatenate per-file artifacts in
upload order; the first error aborts the whole call. -/
def processFilesAux : List UploadedFile → Except String (List Artifact)
  | [] => .ok []
  | file :: rest =>
    match fileArtifacts file with
    | .error e => .error e
    | .ok arts =>
      match processFilesAux rest with
      | .error e => .error e
      | .ok tail => .ok (arts ++ tail)

/-- The embedding of `processFiles`: process files in order, then enforce the
combined page budget by truncating to the first `MAX_PAGES` artifacts. -/
def processFiles (files : List UploadedFile) : Except String (List Artifact) :=
  match processFilesAux files with
  | .error e => .error e
  | .ok results =>
    .ok (if results.length > MAX_PAGES then results.take MAX_PAGES else results)

/-- The per-file size bound of `validateFile` (50 MB). -/
def MAX_FILE_SIZE : Nat := 50 * 1024 * 1024

/-- The media-type allow-list of `validateFile`. -/
def ALLOWED_TYPES : List String :=
  ["image/jpeg", "image/jpg", "image/png", "image/webp", "application/pdf"]

/-- Result shape of `validateFile`. -/
structure ValidationResult where
  valid : Bool
  error : Option String

/-- Two-decimal rendering of `size / 2^20` for the oversize message — the
JavaScript uses `Number.prototype.toFixed(2)` on a double; on the byte counts
involved this rounding to the nearest hundredth is modelled with exact
natural-number arithmetic. -/
def fileSizeMB (size : Nat) : String :=
  let h := (size * 100 + 524288) / 1048576
  toString (h / 100) ++ "." ++ (if h % 100 < 10 then "0" else "") ++ toString (h % 100)

/-- The embedding of `validateFile`: missing file, oversize (checked first),
then the media-type allow-list. -/
def validateFile (file : Option UploadedFile) : ValidationResult :=
  match file with
  | none => ⟨false, some "No file provided"⟩
  | some f =>
    if f.size > MAX_FILE_SIZE then
      ⟨false, some ("File too large (" ++ fileSizeMB f.size ++ "MB). Max: 50MB")⟩
    else if !(ALLOWED_TYPES.contains f.type) then
      ⟨false, some ("Unsupported file type: " ++ f.type)⟩
    else ⟨true, none⟩

/-! ### chromeAI.js -/

/-- Classified JavaScript exception values as `extractJSONFromImages`
distinguishes them: `JSON.parse` syntax errors, the `NotSupportedError` and
`QuotaExceededError` names, and plain `Error` messages. -/
inductive JsErr where
  | syntaxErr (msg : String)
  | notSupportedErr (msg : String)
  | quotaErr (msg : String)
  | genericErr (msg : String)

/-- The module-level mutable state of `chromeAI.js` (`session`,
`modelParams`), passed explicitly. A live handle is an opaque `some ()`. -/
structure AIState where
  session : Option Unit
  modelParams : Option Unit

/-- The behavior of the external LanguageModel capability during one
extraction attempt: whether the API object exists, what `availability()`
returns, whether `create()` succeeds, and the outcomes of the first and
(if reached) second `session.prompt` calls. -/
structure LMEnv where
  hasAPI : Bool
  availability : String
  createResult : Except String Unit
  prompt1 : Except JsErr String
  prompt2 : Except JsErr String

/-- The embedding of `createSessionIfNeeded`: reuse a live session; otherwise
check the API and availability, fetch `params` once, and create. -/
def createSessionIfNeeded (env : LMEnv) (st : AIState) :
    Except String Unit × AIState :=
  if st.session.isSome then (.ok (), st)
  else if !env.hasAPI then (.error "Prompt API not available", st)
  else if env.availability = "unavailable" then
    (.error "Model unavailable on this device/configuration", st)
  else
    let st1 : AIState :=
      if st.modelParams.isNone then ⟨st.session, some ()⟩ else st
    match env.createResult with
    | .ok _ => (.ok (), ⟨some (), st1.modelParams⟩)
    | .error e => (.error ("Session creation failed: " ++ e), st1)

/-- The embedding of `resetSession`: destroy and null the handle. -/
def resetSession (st : AIState) : AIState := ⟨none, st.modelParams⟩

/-- The outer catch of `extractJSONFromImages`: map a classified exception to
the user-facing message (every branch resets the session first). -/
def mapOuterErr (e : JsErr) : String :=
  match e with
  | .syntaxErr _ =>
    "AI returned invalid JSON that couldn\x27t be repaired. Try simplifying your schema request."
  | .notSupportedErr _ =>
    "Multimodal image input not supported. Ensure Chrome Canary 128+ with image support enabled."
  | .quotaErr _ =>
    "Image(s) too large for model. Try reducing image count or resolution."
  | .genericErr m => m

/-- Stage 1 of the response recovery layer: `sanitizeJSON` then `JSON.parse`.
A sanitize failure is a plain `Error`, a parse failure a `SyntaxError` (its
engine-specific message is fixed here; it is never surfaced). -/
def stage1 (raw : String) : Except JsErr JsValue :=
  match sanitizeJSON raw with
  | .error m => .error (.genericErr m)
  | .ok s =>
    match parseJsonStr s with
    | some v => .ok v
    | none => .error (.syntaxErr "Unexpected token in JSON")

/-- Stage 2 of the response recovery layer: `sanitizeJSON` then `repairJSON`
(both failure kinds are plain `Error`s). -/
def stage2 (raw : String) : Except JsErr JsValue :=
  match sanitizeJSON raw with
  | .error m => .error (.genericErr m)
  | .ok s =>
    match repairJSON s with
    | .ok v => .ok v
    | .error m => .error (.genericErr m)

/-- The embedding of `extractJSONFromImages`. Returns the result, the final
module state, and the number of `session.prompt` round-trips made. The
`No images provided` rejection happens after session creation and outside the
try/catch, so it alone does not reset the session. -/
def extractJSONFromImages (env : LMEnv) (st : AIState) (imageBlobs : List String)
    (_schemaPrompt : String) : Except String JsValue × AIState × Nat :=
  match createSessionIfNeeded env st with
  | (.error e, st1) => (.error e, st1, 0)
  | (.ok _, st1) =>
    if imageBlobs.isEmpty then (.error "No images provided for extraction", st1, 0)
    else
      match env.prompt1 with
      | .error je => (.error (mapOuterErr je), resetSession st1, 1)
      | .ok rawResult =>
        match stage1 rawResult with
        | .ok v => (.ok v, resetSession st1, 1)
        | .error _ =>
          match stage2 rawResult with
          | .ok v => (.ok v, resetSession st1, 1)
          | .error _ =>
            match env.prompt2 with
            | .error je => (.error (mapOuterErr je), resetSession st1, 2)
            | .ok repaired =>
              match stage1 repaired with
              | .ok v => (.ok v, resetSession st1, 2)
              | .error je => (.error (mapOuterErr je), resetSession st1, 2)

/-! ### Predicates and measures used to state the round-trip property -/

/-- True when the next character cannot extend a decimal literal — the
condition under which a parsed number is followed by a clean token boundary. -/
def numStop : List Char → Bool
  | [] => true
  | c :: _ => !isDigitChar c

/-- True when the character list contains no run of three consecutive
backticks (the substring that the sanitizer's fence-stripping regexes
destroy). -/
def noTripleTick : List Char → Bool
  | [] => true
  | c :: cs => !(c = '\x60' && isPrefixL ['\x60', '\x60'] cs) && noTripleTick cs

mutual

/-- No string (key or value) anywhere in the document contains a triple
backtick. -/
def fenceFree : JsValue → Bool
  | .null => true
  | .bool _ => true
  | .num _ => true
  | .str s => noTripleTick s.data
  | .arr xs => fenceFreeElems xs
  | .obj fs => fenceFreeFields fs

/-- `fenceFree` on array elements. -/
def fenceFreeElems : List JsValue → Bool
  | [] => true
  | v :: rest => fenceFree v && fenceFreeElems rest

/-- `fenceFree` on object fields. -/
def fenceFreeFields : List (String × JsValue) → Bool
  | [] => true
  | (k, v) :: rest => noTripleTick k.data && fenceFree v && fenceFreeFields rest

end

/-- Key absent from a field list. -/
def keyNotIn (k : String) : List (String × JsValue) → Bool
  | [] => true
  | (k2, _) :: rest => !(k = k2) && keyNotIn k rest

mutual

/-- Every object in the document has pairwise-distinct keys — an invariant of
every value `JSON.parse` produces (duplicate textual keys are collapsed). -/
def wfDoc : JsValue → Bool
  | .null => true
  | .bool _ => true
  | .num _ => true
  | .str _ => true
  | .arr xs => wfElems xs
  | .obj fs => wfFields fs

/-- `wfDoc` on array elements. -/
def wfElems : List JsValue → Bool
  | [] => true
  | v :: rest => wfDoc v && wfElems rest

/-- `wfDoc` on object fields, requiring each key distinct from the later
ones. -/
def wfFields : List (String × JsValue) → Bool
  | [] => true
  | (k, v) :: rest => keyNotIn k rest && wfDoc v && wfFields rest

end

/-- Top-level object or array — the only shapes `sanitizeJSON` lets through,
hence the only shapes a Recovered Document can take. -/
def isComposite : JsValue → Bool
  | .obj _ => true
  | .arr _ => true
  | _ => false

mutual

/-- Sufficient parser fuel for a value (an over-approximation of the number
of recursive-call steps needed to reparse its serialization). -/
def jfuel : JsValue → Nat
  | .obj fs => 2 + ffuel fs
  | .arr xs => 2 + efuel xs
  | _ => 1

/-- Sufficient parser fuel for an object-field list. -/
def ffuel : List (String × JsValue) → Nat
  | [] => 1
  | (_, v) :: rest => 1 + jfuel v + ffuel rest

/-- Sufficient parser fuel for an array-element list. -/
def efuel : List JsValue → Nat
  | [] => 1
  | v :: rest => 1 + jfuel v + efuel rest

end

/-! ## Theorems -/

/-- C6: for the raw model output made of the boilerplate prefix
`Here's the JSON: ` followed by a markdown-fenced json block containing
the object with field `a = 1`, stage 1 (`sanitizeJSON` followed by
`JSON.parse`) succeeds and yields exactly that object. -/
theorem stage1_recovers_fenced_json :
    stage1 "Here\x27s the JSON: \x60\x60\x60json\n\x7b\"a\":1\x7d\n\x60\x60\x60"
      = .ok (.obj [("a", .num 1)]) := rfl

/-- C7: on the raw output an object with a trailing comma, `sanitizeJSON`
passes the text through unchanged, the direct `JSON.parse` of stage 1 fails,
and stage 2 (`repairJSON`, which removes trailing commas before a closing
brace or bracket) succeeds and yields exactly the object with field
`a = 1`. -/
theorem stage2_recovers_trailing_comma :
    sanitizeJSON "\x7b\"a\":1,\x7d" = .ok "\x7b\"a\":1,\x7d" ∧
    parseJsonStr "\x7b\"a\":1,\x7d" = none ∧
    repairJSON "\x7b\"a\":1,\x7d" = .ok (.obj [("a", .num 1)]) ∧
    stage2 "\x7b\"a\":1,\x7d" = .ok (.obj [("a", .num 1)]) :=
  ⟨rfl, rfl, rfl, rfl⟩

/-- C10: on any string the embedded `JSON.parse` accepts, `repairJSON`
does not throw and returns exactly the parsed value, so stage 2 succeeds on
every input stage 1's parse step would accept. -/
theorem repairJSON_agrees_on_valid (s : String) (v : JsValue)
    (h : parseJsonStr s = some v) : repairJSON s = .ok v := by
  unfold repairJSON
  rw [h]

/-- Witness for `repairJSON_agrees_on_valid` at a concrete valid input. -/
theorem repairJSON_agrees_on_valid_witness :
    parseJsonStr "\x7b\"a\":1\x7d" = some (.obj [("a", .num 1)]) ∧
    repairJSON "\x7b\"a\":1\x7d" = .ok (.obj [("a", .num 1)]) :=
  ⟨rfl, repairJSON_agrees_on_valid _ _ rfl⟩

/-- C1: whenever `processFiles` succeeds, the returned artifact list has at
most `MAX_PAGES` entries, whatever files and however many PDF pages were
supplied. -/
theorem processFiles_le_budget (files : List UploadedFile) (arts : List Artifact)
    (h : processFiles files = .ok arts) : arts.length ≤ MAX_PAGES := by
  unfold processFiles at h
  cases haux : processFilesAux files with
  | error e => rw [haux] at h; cases h
  | ok results =>
    rw [haux] at h
    injection h with h2
    subst h2
    by_cases hl : results.length > MAX_PAGES
    · simp only [if_pos hl, List.length_take]
      exact min_le_left _ _
    · simp only [if_neg hl]
      omega

/-- Witness for `processFiles_le_budget` at a concrete upload. -/
theorem processFiles_le_budget_witness :
    processFiles [⟨"a.png", "image/png", 10, "blobA", none, []⟩] =
      .ok [⟨"blobA", "image", "a.png", none, none⟩] ∧
    ([(⟨"blobA", "image", "a.png", none, none⟩ : Artifact)]).length ≤ MAX_PAGES :=
  ⟨rfl, processFiles_le_budget [⟨"a.png", "image/png", 10, "blobA", none, []⟩] _ rfl⟩

/-- C9: `validateFile` rejects every oversized file and every file whose
declared media type is outside the allow-list, with a per-file error
message. -/
theorem validateFile_rejects (f : UploadedFile)
    (h : f.size > MAX_FILE_SIZE ∨ ALLOWED_TYPES.contains f.type = false) :
    (validateFile (some f)).valid = false ∧
    (validateFile (some f)).error.isSome = true := by
  unfold validateFile
  by_cases h1 : f.size > MAX_FILE_SIZE
  · simp [h1]
  · rcases h with h | h
    · exact absurd h h1
    · have h2 : ¬ f.type ∈ ALLOWED_TYPES := by simpa using h
      simp [h1, h2]

/-- Witness for `validateFile_rejects`: a 51 MB PDF is rejected. -/
theorem validateFile_rejects_witness :
    ((53477376 > MAX_FILE_SIZE) ∨ ALLOWED_TYPES.contains "application/pdf" = false) ∧
    ((validateFile (some ⟨"big.pdf", "application/pdf", 53477376, "b", none, []⟩)).valid = false ∧
     (validateFile (some ⟨"big.pdf", "application/pdf", 53477376, "b", none, []⟩)).error.isSome = true) :=
  ⟨Or.inl (by norm_num [MAX_FILE_SIZE]),
   validateFile_rejects _ (Or.inl (by norm_num [MAX_FILE_SIZE]))⟩

/-- The page loop surfaces the first failing page with its 1-based number. -/
theorem renderPagesAux_firstError (fname : String) (ps : List (Except String PageOutcome)) :
    ∀ (k j : Nat) (e : String), firstPageError k ps = some (j, e) →
      renderPagesAux fname k ps =
        .error ("Failed to render page " ++ toString j ++ ": " ++ e) := by
  induction ps with
  | nil => intro k j e h; cases h
  | cons o rest ih =>
    intro k j e h
    cases o with
    | error e2 =>
      simp only [firstPageError, Option.some.injEq, Prod.mk.injEq] at h
      obtain ⟨hk, he⟩ := h
      subst hk; subst he
      rfl
    | ok p =>
      simp only [firstPageError] at h
      simp only [renderPagesAux, ih _ _ _ h]

/-- A file whose conversion fails makes the whole `processFilesAux` loop
fail. -/
theorem processFilesAux_error_of_mem (files : List UploadedFile) (f : UploadedFile)
    (m : String) (hf : f ∈ files) (he : fileArtifacts f = .error m) :
    ∃ e, processFilesAux files = .error e := by
  induction files with
  | nil => cases hf
  | cons g rest ih =>
    rcases List.mem_cons.mp hf with h | h
    · subst h
      refine ⟨m, ?_⟩
      unfold processFilesAux
      rw [he]
    · cases hg : fileArtifacts g with
      | error e2 =>
        refine ⟨e2, ?_⟩
        unfold processFilesAux
        rw [hg]
      | ok arts =>
        obtain ⟨e2, he2⟩ := ih h
        refine ⟨e2, ?_⟩
        unfold processFilesAux
        rw [hg, he2]

/-- C5 (amended): if a within-budget page of an uploaded PDF fails to
render, the file's processing fails with an error identifying the failing
page number (but not the file name), and `processFiles` on any batch
containing the file returns no artifacts at all. -/
theorem pdf_page_failure_aborts (files : List UploadedFile) (f : UploadedFile)
    (k : Nat) (e : String) (hf : f ∈ files)
    (htype : f.type = "application/pdf") (hload : f.loadError = none)
    (hpage : firstPageError 1 (f.pages.take MAX_PAGES) = some (k, e)) :
    fileArtifacts f =
      .error ("PDF processing failed: Failed to render page " ++ toString k ++ ": " ++ e) ∧
    ∀ arts, processFiles files ≠ .ok arts := by
  have hfa : fileArtifacts f =
      .error ("PDF processing failed: Failed to render page " ++ toString k ++ ": " ++ e) := by
    have hsw : jsStartsWith "application/pdf" "image/" = false := rfl
    have hr := renderPagesAux_firstError f.name (f.pages.take MAX_PAGES) 1 k e hpage
    unfold fileArtifacts convertPdfToImages
    rw [htype, hload]
    simp [hsw, hr, ← String.append_assoc]
  refine ⟨hfa, ?_⟩
  intro arts hok
  obtain ⟨e2, he2⟩ := processFilesAux_error_of_mem files f _ hf hfa
  unfold processFiles at hok
  rw [he2] at hok
  cases hok

/-- Witness for `pdf_page_failure_aborts`: a one-page PDF whose only page
fails with message `boom`. -/
theorem pdf_page_failure_aborts_witness :
    ((⟨"doc.pdf", "application/pdf", 5, "B", none, [.error "boom"]⟩ : UploadedFile) ∈
      [(⟨"doc.pdf", "application/pdf", 5, "B", none, [.error "boom"]⟩ : UploadedFile)]) ∧
    (fileArtifacts ⟨"doc.pdf", "application/pdf", 5, "B", none, [.error "boom"]⟩ =
      .error ("PDF processing failed: Failed to render page " ++ toString 1 ++ ": " ++ "boom") ∧
     ∀ arts, processFiles [⟨"doc.pdf", "application/pdf", 5, "B", none, [.error "boom"]⟩] ≠ .ok arts) :=
  ⟨List.mem_singleton.mpr rfl,
   pdf_page_failure_aborts _ _ 1 "boom" (List.mem_singleton.mpr rfl) rfl rfl rfl⟩

/-- C5 (counterexample to the claim as stated): for a PDF named `doc.pdf`
whose page 1 fails with `boom`, the error `processFiles` raises identifies
the failing page number but does not contain the source file's name — the
name appears only in a console log, not in the thrown error. -/
theorem pdf_error_lacks_filename :
    processFiles [⟨"doc.pdf", "application/pdf", 5, "B", none, [.error "boom"]⟩]
      = .error "PDF processing failed: Failed to render page 1: boom" ∧
    strContains "PDF processing failed: Failed to render page 1: boom" "doc.pdf" = false ∧
    strContains "PDF processing failed: Failed to render page 1: boom" "page 1" = true :=
  ⟨rfl, rfl, rfl⟩

/-- When `createSessionIfNeeded` fails, no session handle was installed. -/
theorem createSession_error_session_none (env : LMEnv) (st : AIState) (e : String)
    (st1 : AIState) (h : createSessionIfNeeded env st = (.error e, st1)) :
    st1.session = none := by
  by_cases h1 : st.session.isSome
  · unfold createSessionIfNeeded at h
    rw [if_pos h1] at h
    simp at h
  · have hs : st.session = none := Option.not_isSome_iff_eq_none.mp h1
    unfold createSessionIfNeeded at h
    rw [if_neg h1] at h
    by_cases h2 : (!env.hasAPI) = true
    · rw [if_pos h2] at h
      injection h with ha hb
      rw [← hb]
      exact hs
    · rw [if_neg h2] at h
      by_cases h3 : env.availability = "unavailable"
      · rw [if_pos h3] at h
        injection h with ha hb
        rw [← hb]
        exact hs
      · rw [if_neg h3] at h
        cases hcr : env.createResult with
        | ok u => rw [hcr] at h; simp at h
        | error e2 =>
          rw [hcr] at h
          injection h with ha hb
          rw [← hb]
          by_cases h4 : st.modelParams.isNone
          · simp only [if_pos h4]
            exact hs
          · simp only [if_neg h4]
            exact hs

/-- C3 (amended): every extraction attempt with a nonempty image list ends
with the session handle null — success and every failure path inside the
try/catch reset it, and a session-creation failure never installs one. -/
theorem extract_resets_session (env : LMEnv) (st : AIState) (blobs : List String)
    (sp : String) (h : blobs ≠ []) :
    ((extractJSONFromImages env st blobs sp).2.1).session = none := by
  have hne : blobs.isEmpty = false := by
    cases blobs with
    | nil => exact absurd rfl h
    | cons b bs => rfl
  unfold extractJSONFromImages
  cases hc : createSessionIfNeeded env st with
  | mk r st1 =>
    cases r with
    | error e =>
      simpa using createSession_error_session_none env st e st1 hc
    | ok u =>
      simp only [hne, Bool.false_eq_true, if_false]
      cases env.prompt1 with
      | error je => simp [resetSession]
      | ok rawResult =>
        cases hs1 : stage1 rawResult with
        | ok v => simp [hs1, resetSession]
        | error je1 =>
          cases hs2 : stage2 rawResult with
          | ok v => simp [hs1, hs2, resetSession]
          | error je2 =>
            cases env.prompt2 with
            | error je => simp [hs1, hs2, resetSession]
            | ok repaired =>
              cases hs3 : stage1 repaired with
              | ok v => simp [hs1, hs2, hs3, resetSession]
              | error je => simp [hs1, hs2, hs3, resetSession]

/-- Witness for `extract_resets_session` at a concrete successful
extraction. -/
theorem extract_resets_session_witness :
    ((["b"] : List String) ≠ []) ∧
    ((extractJSONFromImages ⟨true, "available", .ok (), .ok "\x7b\"a\":1\x7d", .ok "r"⟩
        ⟨none, none⟩ ["b"] "p").2.1).session = none :=
  ⟨by simp,
   extract_resets_session ⟨true, "available", .ok (), .ok "\x7b\"a\":1\x7d", .ok "r"⟩
     ⟨none, none⟩ ["b"] "p" (by simp)⟩

/-- C3 (counterexample to the claim as stated): calling
`extractJSONFromImages` with an empty image list fails after creating the
session but outside the try/catch, so the module-level handle stays live —
the next attempt will not go through session creation again. -/
theorem extract_emptyBlobs_session_live :
    (extractJSONFromImages ⟨true, "available", .ok (), .ok "r", .ok "r"⟩
        ⟨none, none⟩ [] "p").1 = .error "No images provided for extraction" ∧
    ((extractJSONFromImages ⟨true, "available", .ok (), .ok "r", .ok "r"⟩
        ⟨none, none⟩ [] "p").2.1).session = some () :=
  ⟨rfl, rfl⟩

/-- C4 (amended): on the empty raw model output, stage 1's `sanitizeJSON`
fails immediately with the `empty response` classification (before any
substring extraction), but the recovery layer as a whole then attempts
stage 2 and stage 3 — the extraction performs the second model round-trip. -/
theorem emptyRaw_attempts_stage3 (env : LMEnv) (st : AIState) (blobs : List String)
    (sp : String) (h : blobs ≠ [])
    (hok : (createSessionIfNeeded env st).1 = .ok ())
    (hraw : env.prompt1 = .ok "") :
    sanitizeJSON "" = .error "Empty response from AI model" ∧
    (extractJSONFromImages env st blobs sp).2.2 = 2 := by
  refine ⟨rfl, ?_⟩
  have hne : blobs.isEmpty = false := by
    cases blobs with
    | nil => exact absurd rfl h
    | cons b bs => rfl
  unfold extractJSONFromImages
  cases hc : createSessionIfNeeded env st with
  | mk r st1 =>
    rw [hc] at hok
    cases r with
    | error e => simp at hok
    | ok u =>
      simp only [hne, Bool.false_eq_true, if_false, hraw]
      have h1 : stage1 "" = .error (.genericErr "Empty response from AI model") := rfl
      have h2 : stage2 "" = .error (.genericErr "Empty response from AI model") := rfl
      rw [h1, h2]
      cases env.prompt2 with
      | error je => rfl
      | ok repaired =>
        cases hs3 : stage1 repaired with
        | ok v => simp [hs3]
        | error je => simp [hs3]

/-- Witness for `emptyRaw_attempts_stage3` at a concrete environment. -/
theorem emptyRaw_attempts_stage3_witness :
    ((["b"] : List String) ≠ []) ∧
    (createSessionIfNeeded ⟨true, "available", .ok (), .ok "", .error (.genericErr "down")⟩
      ⟨none, none⟩).1 = .ok () ∧
    (sanitizeJSON "" = .error "Empty response from AI model" ∧
     (extractJSONFromImages ⟨true, "available", .ok (), .ok "", .error (.genericErr "down")⟩
        ⟨none, none⟩ ["b"] "p").2.2 = 2) :=
  ⟨by simp, rfl,
   emptyRaw_attempts_stage3 ⟨true, "available", .ok (), .ok "", .error (.genericErr "down")⟩
     ⟨none, none⟩ ["b"] "p" (by simp) rfl rfl⟩

/-- C4 (counterexample to the claim as stated): with empty raw output and a
repair round-trip that returns valid JSON, the extraction does not fail at
all — it attempts stage 3 (two prompt calls) and succeeds, contradicting
`fails immediately without attempting stage 2 or 3`. -/
theorem extract_emptyRaw_succeeds_via_stage3 :
    (extractJSONFromImages ⟨true, "available", .ok (), .ok "", .ok "\x7b\"a\":1\x7d"⟩
        ⟨none, none⟩ ["b"] "p").1 = .ok (.obj [("a", .num 1)]) ∧
    (extractJSONFromImages ⟨true, "available", .ok (), .ok "", .ok "\x7b\"a\":1\x7d"⟩
        ⟨none, none⟩ ["b"] "p").2.2 = 2 :=
  ⟨rfl, rfl⟩

/-- A successful `processFilesAux` run is exactly the in-order concatenation
of the per-file artifact lists. -/
theorem processFilesAux_decomp (files : List UploadedFile) (all : List Artifact)
    (h : processFilesAux files = .ok all) :
    ∃ perFile : List (List Artifact),
      List.Forall₂ (fun f l => fileArtifacts f = .ok l) files perFile ∧
      all = perFile.flatten := by
  induction files generalizing all with
  | nil =>
    injection h with h2
    exact ⟨[], List.Forall₂.nil, by simp [← h2]⟩
  | cons f rest ih =>
    unfold processFilesAux at h
    cases hfa : fileArtifacts f with
    | error e => rw [hfa] at h; cases h
    | ok arts =>
      rw [hfa] at h
      cases haux : processFilesAux rest with
      | error e => rw [haux] at h; cases h
      | ok tail =>
        rw [haux] at h
        injection h with h2
        obtain ⟨perFile, hf2, hflat⟩ := ih tail haux
        exact ⟨arts :: perFile, List.Forall₂.cons hfa hf2, by simp [← h2, hflat]⟩

/-- The page loop emits artifacts with consecutive page numbers starting at
its initial counter. -/
theorem renderPagesAux_pageNums (fname : String) (ps : List (Except String PageOutcome)) :
    ∀ (k : Nat) (l : List Artifact), renderPagesAux fname k ps = .ok l →
      l.map Artifact.pageNum = (List.range' k l.length).map some := by
  induction ps with
  | nil =>
    intro k l h
    injection h with h2
    subst h2
    rfl
  | cons o rest ih =>
    intro k l h
    cases o with
    | error e => unfold renderPagesAux at h; cases h
    | ok p =>
      unfold renderPagesAux at h
      cases hr : renderPagesAux fname (k + 1) rest with
      | error e => rw [hr] at h; cases h
      | ok tail =>
        rw [hr] at h
        injection h with h2
        subst h2
        have := ih (k + 1) tail hr
        simp [List.range'_succ, this]

/-- A PDF file's artifact list carries ascending page numbers `1, 2, …`. -/
theorem fileArtifacts_pdf_pageNums (f : UploadedFile) (l : List Artifact)
    (ht : f.type = "application/pdf") (h : fileArtifacts f = .ok l) :
    l.map Artifact.pageNum = (List.range' 1 l.length).map some := by
  unfold fileArtifacts at h
  rw [ht, show jsStartsWith "application/pdf" "image/" = false from rfl] at h
  simp only [Bool.false_eq_true, if_false, if_pos rfl] at h
  unfold convertPdfToImages at h
  cases hl : f.loadError with
  | some e => rw [hl] at h; cases h
  | none =>
    rw [hl] at h
    cases hr : renderPagesAux f.name 1 (f.pages.take MAX_PAGES) with
    | error e => rw [hr] at h; cases h
    | ok arts =>
      rw [hr] at h
      injection h with h2
      subst h2
      exact renderPagesAux_pageNums f.name _ 1 _ hr

/-- C2: whenever `processFiles` succeeds, the artifact list is the first
`MAX_PAGES` entries of the in-order concatenation of the per-file artifact
lists — artifacts of an earlier file precede those of a later file — and
within a PDF's list the page numbers ascend from 1. -/
theorem processFiles_order (files : List UploadedFile) (arts : List Artifact)
    (h : processFiles files = .ok arts) :
    ∃ perFile : List (List Artifact),
      List.Forall₂ (fun f l => fileArtifacts f = .ok l) files perFile ∧
      arts = perFile.flatten.take MAX_PAGES ∧
      ∀ f l, fileArtifacts f = .ok l → f.type = "application/pdf" →
        l.map Artifact.pageNum = (List.range' 1 l.length).map some := by
  unfold processFiles at h
  cases haux : processFilesAux files with
  | error e => rw [haux] at h; cases h
  | ok all =>
    rw [haux] at h
    injection h with h2
    obtain ⟨perFile, hf2, hflat⟩ := processFilesAux_decomp files all haux
    refine ⟨perFile, hf2, ?_, fun f l hfl ht => fileArtifacts_pdf_pageNums f l ht hfl⟩
    rw [← hflat, ← h2]
    by_cases hl : all.length > MAX_PAGES
    · rw [if_pos hl]
    · rw [if_neg hl, List.take_of_length_le (by omega)]

/-- Witness for `processFiles_order`: an image followed by a two-page PDF
yields the image artifact first, then pages 1 and 2 in order. -/
theorem processFiles_order_witness :
    processFiles
        [⟨"a.png", "image/png", 1, "bA", none, []⟩,
         ⟨"d.pdf", "application/pdf", 2, "bD", none,
           [.ok ⟨"p1", 10, 20⟩, .ok ⟨"p2", 30, 40⟩]⟩] =
      .ok [⟨"bA", "image", "a.png", none, none⟩,
           ⟨"p1", "pdf", "d.pdf - Page 1", some 1, some (10, 20)⟩,
           ⟨"p2", "pdf", "d.pdf - Page 2", some 2, some (30, 40)⟩] ∧
    (∃ perFile : List (List Artifact),
      List.Forall₂ (fun f l => fileArtifacts f = .ok l)
        [⟨"a.png", "image/png", 1, "bA", none, []⟩,
         ⟨"d.pdf", "application/pdf", 2, "bD", none,
           [.ok ⟨"p1", 10, 20⟩, .ok ⟨"p2", 30, 40⟩]⟩] perFile ∧
      [(⟨"bA", "image", "a.png", none, none⟩ : Artifact),
       ⟨"p1", "pdf", "d.pdf - Page 1", some 1, some (10, 20)⟩,
       ⟨"p2", "pdf", "d.pdf - Page 2", some 2, some (30, 40)⟩] =
        perFile.flatten.take MAX_PAGES ∧
      ∀ f l, fileArtifacts f = .ok l → f.type = "application/pdf" →
        l.map Artifact.pageNum = (List.range' 1 l.length).map some) :=
  ⟨rfl, processFiles_order _ _ rfl⟩

/-! ### Round-trip of the serializer through the parser -/

/-- Unescaping a serializer-produced hex digit recovers its value. -/
theorem hexDigitVal_hexChar : ∀ k, k < 16 → hexDigitVal (hexChar k) = some k := by
  decide

/-- Parsing the escaped body of a string recovers it exactly. -/
theorem parseStrChars_escBody (cs : List Char) (rest : List Char) :
    parseStrChars (escBody cs ++ '"' :: rest) = some (cs, rest) := by
  induction cs with
  | nil => rfl
  | cons c cs ih =>
    show parseStrChars ((escChar c ++ escBody cs) ++ '"' :: rest) = some (c :: cs, rest)
    rw [List.append_assoc]
    by_cases h1 : c = '"'
    · subst h1
      rw [show escChar '"' = ['\\', '"'] from rfl]
      simp [parseStrChars, parseEsc, ih]
    · by_cases h2 : c = '\\'
      · subst h2
        rw [show escChar '\\' = ['\\', '\\'] from rfl]
        simp [parseStrChars, parseEsc, ih]
      · by_cases h3 : c = '\x08'
        · subst h3
          rw [show escChar '\x08' = ['\\', 'b'] from rfl]
          simp [parseStrChars, parseEsc, ih]
        · by_cases h4 : c = '\x0c'
          · subst h4
            rw [show escChar '\x0c' = ['\\', 'f'] from rfl]
            simp [parseStrChars, parseEsc, ih]
          · by_cases h5 : c = '\n'
            · subst h5
              rw [show escChar '\n' = ['\\', 'n'] from rfl]
              simp [parseStrChars, parseEsc, ih]
            · by_cases h6 : c = '\r'
              · subst h6
                rw [show escChar '\r' = ['\\', 'r'] from rfl]
                simp [parseStrChars, parseEsc, ih]
              · by_cases h7 : c = '\t'
                · subst h7
                  rw [show escChar '\t' = ['\\', 't'] from rfl]
                  simp [parseStrChars, parseEsc, ih]
                · by_cases h8 : c.toNat < 32
                  · have hhi := hexDigitVal_hexChar (c.toNat / 16) (by omega)
                    have hlo := hexDigitVal_hexChar (c.toNat % 16) (by omega)
                    have hns : ¬ 55296 ≤ c.toNat := by omega
                    rw [show escChar c = ['\\', 'u', '0', '0', hexChar (c.toNat / 16),
                          hexChar (c.toNat % 16)] from by
                      simp [escChar, h1, h2, h3, h4, h5, h6, h7, h8]]
                    have hz : hexDigitVal '0' = some 0 := rfl
                    simp [parseStrChars, parseEsc, hz, hhi, hlo, ih, Nat.div_add_mod, hns]
                  · rw [show escChar c = [c] from by
                      simp [escChar, h1, h2, h3, h4, h5, h6, h7, h8]]
                    simp [parseStrChars, h1, h2, h8, ih]

/-- The fuel of `natCharsAux` is irrelevant once it exceeds the number. -/
theorem natCharsAux_fuel : ∀ (n fuel : Nat), n < fuel → natCharsAux fuel n = natChars n := by
  intro n
  induction n using Nat.strong_induction_on with
  | _ n ih =>
    intro fuel h
    cases fuel with
    | zero => omega
    | succ f =>
      unfold natChars
      by_cases h10 : n < 10
      · simp only [natCharsAux, if_pos h10]
      · have hd : n / 10 < n := Nat.div_lt_self (by omega) (by omega)
        simp only [natCharsAux, if_neg h10]
        rw [ih (n / 10) hd f (by omega), ih (n / 10) hd n (by omega)]

/-- One-step unfolding of the decimal printer. -/
theorem natChars_spec (n : Nat) :
    natChars n = if n < 10 then [Char.ofNat (48 + n)]
      else natChars (n / 10) ++ [Char.ofNat (48 + n % 10)] := by
  by_cases h10 : n < 10
  · rw [if_pos h10]
    unfold natChars
    simp only [natCharsAux, if_pos h10]
  · have hd : n / 10 < n := Nat.div_lt_self (by omega) (by omega)
    rw [if_neg h10]
    conv_lhs => rw [natChars]
    simp only [natCharsAux, if_neg h10]
    rw [natCharsAux_fuel (n / 10) n (by omega)]

/-- Serialized digit characters are digits. -/
theorem isDigitChar_ofNat_digit : ∀ k, k < 10 → isDigitChar (Char.ofNat (48 + k)) = true := by
  decide

/-- A nonzero digit character is not the zero character. -/
theorem ofNat_digit_ne_zero : ∀ k, k < 10 → 0 < k → Char.ofNat (48 + k) ≠ '0' := by
  decide

/-- Digit value of a serialized digit character. -/
theorem digitVal_ofNat_digit : ∀ k, k < 10 → digitVal (Char.ofNat (48 + k)) = k := by
  decide

/-- The decimal printer emits only digits. -/
theorem natChars_all_digits (n : Nat) : ∀ c ∈ natChars n, isDigitChar c = true := by
  induction n using Nat.strong_induction_on with
  | _ n ih =>
    rw [natChars_spec]
    by_cases h10 : n < 10
    · simp only [if_pos h10, List.mem_singleton]
      intro c hc
      subst hc
      exact isDigitChar_ofNat_digit n h10
    · have hd : n / 10 < n := Nat.div_lt_self (by omega) (by omega)
      simp only [if_neg h10, List.mem_append, List.mem_singleton]
      intro c hc
      rcases hc with hc | hc
      · exact ih (n / 10) hd c hc
      · subst hc
        exact isDigitChar_ofNat_digit (n % 10) (by omega)

/-- The decimal printer output starts with a digit (never empty). -/
theorem natChars_cons (n : Nat) :
    ∃ c cs2, natChars n = c :: cs2 ∧ isDigitChar c = true := by
  induction n using Nat.strong_induction_on with
  | _ n ih =>
    rw [natChars_spec]
    by_cases h10 : n < 10
    · exact ⟨_, [], by simp [h10], isDigitChar_ofNat_digit n h10⟩
    · have hd : n / 10 < n := Nat.div_lt_self (by omega) (by omega)
      obtain ⟨c, cs2, hc, hdig⟩ := ih (n / 10) hd
      exact ⟨c, cs2 ++ [Char.ofNat (48 + n % 10)], by simp [h10, hc], hdig⟩

/-- For a positive number the leading digit is nonzero. -/
theorem natChars_head_pos (n : Nat) (hn : 0 < n) :
    ∃ c cs2, natChars n = c :: cs2 ∧ isDigitChar c = true ∧ c ≠ '0' := by
  induction n using Nat.strong_induction_on with
  | _ n ih =>
    rw [natChars_spec]
    by_cases h10 : n < 10
    · exact ⟨_, [], by simp [h10], isDigitChar_ofNat_digit n h10,
        ofNat_digit_ne_zero n h10 hn⟩
    · have hd : n / 10 < n := Nat.div_lt_self (by omega) (by omega)
      obtain ⟨c, cs2, hc, hdig, hz⟩ := ih (n / 10) hd (by omega)
      exact ⟨c, cs2 ++ [Char.ofNat (48 + n % 10)], by simp [h10, hc], hdig, hz⟩

/-- Folding a trailing digit. -/
theorem digitsToNat_append (ds : List Char) (c : Char) :
    digitsToNat (ds ++ [c]) = 10 * digitsToNat ds + digitVal c := by
  unfold digitsToNat
  rw [List.foldl_append]
  rfl

/-- The decimal printer round-trips through the digit folder. -/
theorem digitsToNat_natChars (n : Nat) : digitsToNat (natChars n) = n := by
  induction n using Nat.strong_induction_on with
  | _ n ih =>
    rw [natChars_spec]
    by_cases h10 : n < 10
    · rw [if_pos h10]
      show digitsToNat [Char.ofNat (48 + n)] = n
      unfold digitsToNat
      simp [digitVal_ofNat_digit n h10]
    · have hd : n / 10 < n := Nat.div_lt_self (by omega) (by omega)
      rw [if_neg h10, digitsToNat_append, ih (n / 10) hd,
        digitVal_ofNat_digit (n % 10) (by omega)]
      omega

/-- A maximal digit run splits a digits-then-stop concatenation exactly. -/
theorem takeDigitRun_append (ds rest : List Char)
    (hd : ∀ c ∈ ds, isDigitChar c = true) (hr : numStop rest = true) :
    takeDigitRun (ds ++ rest) = (ds, rest) := by
  induction ds with
  | nil =>
    cases rest with
    | nil => rfl
    | cons c cs =>
      simp only [numStop, Bool.not_eq_true'] at hr
      simp [takeDigitRun, hr]
  | cons c cs ih =>
    have hc := hd c (by simp)
    simp [takeDigitRun, hc, ih (fun x hx => hd x (by simp [hx]))]

/-- A digit character is not a given non-digit character. -/
theorem isDigitChar_ne (c x : Char) (h : isDigitChar c = true)
    (hx : isDigitChar x = false) : c ≠ x := by
  intro he
  subst he
  rw [h] at hx
  cases hx

/-- Parsing the printed natural number recovers it. -/
theorem parseIntNat_natChars (n : Nat) (rest : List Char) (hr : numStop rest = true) :
    parseIntNat (natChars n ++ rest) = some (n, rest) := by
  by_cases hn : n = 0
  · subst hn
    rw [show natChars 0 = ['0'] from rfl]
    simp [parseIntNat]
  · obtain ⟨c, cs2, hc, hdig, hz⟩ := natChars_head_pos n (by omega)
    have hds : ∀ x ∈ cs2, isDigitChar x = true := by
      intro x hx
      exact natChars_all_digits n x (by rw [hc]; simp [hx])
    have hval : digitsToNat (c :: cs2) = n := by
      have := digitsToNat_natChars n
      rwa [hc] at this
    rw [hc]
    simp only [List.cons_append, parseIntNat, if_neg hz, if_pos hdig,
      takeDigitRun_append cs2 rest hds hr]
    rw [hval]

/-- Parsing the printed integer recovers it. -/
theorem parseIntLit_intChars (n : Int) (rest : List Char) (hr : numStop rest = true) :
    parseIntLit (intChars n ++ rest) = some (n, rest) := by
  by_cases hn : n < 0
  · rw [show intChars n = '-' :: natChars n.natAbs from by simp [intChars, hn]]
    simp only [List.cons_append, parseIntLit, if_pos rfl,
      parseIntNat_natChars n.natAbs rest hr]
    simp
    rw [abs_of_neg hn]
    ring
  · rw [show intChars n = natChars n.toNat from by simp [intChars, hn]]
    obtain ⟨c, cs2, hc, hdig⟩ := natChars_cons n.toNat
    have hminus : c ≠ '-' := isDigitChar_ne c '-' hdig (by decide)
    rw [hc]
    simp only [List.cons_append, parseIntLit, if_neg hminus]
    rw [← List.cons_append, ← hc, parseIntNat_natChars n.toNat rest hr]
    simp [show ((n.toNat : Int)) = n from by omega]

/-- Semantics of `keyNotIn`. -/
theorem keyNotIn_spec (k : String) (fs : List (String × JsValue))
    (h : keyNotIn k fs = true) : ∀ p ∈ fs, p.1 ≠ k := by
  induction fs with
  | nil => intro p hp; cases hp
  | cons q rest ih =>
    obtain ⟨k2, v⟩ := q
    simp only [keyNotIn, Bool.and_eq_true, Bool.not_eq_true', decide_eq_false_iff_not] at h
    intro p hp
    rcases List.mem_cons.mp hp with hp | hp
    · subst hp
      intro he
      exact h.1 he.symm
    · exact ih h.2 p hp

/-- Assigning a fresh key appends the field. -/
theorem assignField_fresh (acc : List (String × JsValue)) (k : String) (v : JsValue)
    (h : ∀ p ∈ acc, p.1 ≠ k) : assignField acc k v = acc ++ [(k, v)] := by
  unfold assignField
  rw [if_neg]
  intro hany
  simp only [List.any_eq_true, decide_eq_true_eq] at hany
  obtain ⟨p, hp, hpk⟩ := hany
  exact h p hp hpk

/-- The object builder is the identity on field lists with distinct keys. -/
theorem buildObj_go (fs : List (String × JsValue)) :
    ∀ acc, wfFields fs = true → (∀ p ∈ fs, ∀ q ∈ acc, q.1 ≠ p.1) →
      List.foldl (fun a p => assignField a p.1 p.2) acc fs = acc ++ fs := by
  induction fs with
  | nil => intro acc _ _; simp
  | cons q rest ih =>
    intro acc hwf hdis
    obtain ⟨k, v⟩ := q
    simp only [wfFields, Bool.and_eq_true] at hwf
    obtain ⟨⟨hkni, hwfv⟩, hwfr⟩ := hwf
    rw [List.foldl_cons]
    have hfresh : ∀ p ∈ acc, p.1 ≠ k := fun p hp => hdis (k, v) (by simp) p hp
    show List.foldl (fun a p => assignField a p.1 p.2) (assignField acc k v) rest
        = acc ++ (k, v) :: rest
    rw [assignField_fresh acc k v hfresh, ih (acc ++ [(k, v)]) hwfr]
    · simp
    · intro p hp q2 hq2
      rcases List.mem_append.mp hq2 with hq | hq
      · exact hdis p (by simp [hp]) q2 hq
      · rw [List.mem_singleton.mp hq]
        exact fun he => keyNotIn_spec k rest hkni p hp he.symm

/-- `buildObj` preserves a parsed field list with pairwise-distinct keys. -/
theorem buildObj_eq_self (fs : List (String × JsValue)) (h : wfFields fs = true) :
    buildObj fs = fs := by
  unfold buildObj
  rw [buildObj_go fs [] h (by intro p hp q hq; cases hq)]
  simp

/-- A non-whitespace head is not skipped. -/
theorem skipJsonWs_cons_not (c : Char) (cs : List Char) (h : isJsonWs c = false) :
    skipJsonWs (c :: cs) = c :: cs := by
  simp [skipJsonWs, h]

/-- JSON whitespace characters have code points at most 32. -/
theorem toNat_le_of_isJsonWs (c : Char) (h : isJsonWs c = true) : c.toNat ≤ 32 := by
  simp only [isJsonWs, Bool.or_eq_true, decide_eq_true_eq] at h
  rcases h with ((h | h) | h) | h <;> subst h <;> decide

/-- Characters past the whitespace range are not JSON whitespace. -/
theorem isJsonWs_eq_false (c : Char) (h : 33 ≤ c.toNat) : isJsonWs c = false := by
  by_contra hc
  have := toNat_le_of_isJsonWs c (by
    cases hws : isJsonWs c
    · exact absurd hws hc
    · rfl)
  omega

/-- Digit characters have code points 48 to 57. -/
theorem digit_bounds (c : Char) (h : isDigitChar c = true) :
    48 ≤ c.toNat ∧ c.toNat ≤ 57 := by
  simp only [isDigitChar, Bool.and_eq_true, decide_eq_true_eq] at h
  obtain ⟨h1, h2⟩ := h
  rw [Char.le_def] at h1 h2
  exact ⟨h1, h2⟩

/-- Digit characters are not JSON whitespace. -/
theorem isJsonWs_digit (c : Char) (h : isDigitChar c = true) : isJsonWs c = false :=
  isJsonWs_eq_false c (by have := digit_bounds c h; omega)

/-- The leading character of a printed integer. -/
theorem intChars_cons (n : Int) :
    ∃ c t, intChars n = c :: t ∧ (c = '-' ∨ isDigitChar c = true) := by
  by_cases hn : n < 0
  · exact ⟨'-', natChars n.natAbs, by simp [intChars, hn], Or.inl rfl⟩
  · obtain ⟨c, t, hc, hd⟩ := natChars_cons n.toNat
    exact ⟨c, t, by simp [intChars, hn, hc], Or.inr hd⟩

/-- On input that starts with none of the literal prefixes, `parseVal`
delegates to the number parser. -/
theorem parseVal_default (fuel : Nat) (c : Char) (cs : List Char)
    (hws : isJsonWs c = false) (hn : c ≠ 'n') (ht : c ≠ 't') (hf : c ≠ 'f')
    (hq : c ≠ '"') (hob : c ≠ '{') (hcb : c ≠ '[') :
    parseVal (Nat.succ fuel) (c :: cs) =
      match parseIntLit (c :: cs) with
      | some (p, r) => some (.num p, r)
      | none => none := by
  have hskip : skipJsonWs (c :: cs) = c :: cs := skipJsonWs_cons_not c cs hws
  simp only [parseVal, hskip]
  split
  · next heq => rw [List.cons.injEq] at heq; exact absurd heq.1 hn
  · next heq => rw [List.cons.injEq] at heq; exact absurd heq.1 ht
  · next heq => rw [List.cons.injEq] at heq; exact absurd heq.1 hf
  · next heq => rw [List.cons.injEq] at heq; exact absurd heq.1 hq
  · next heq => rw [List.cons.injEq] at heq; exact absurd heq.1 hob
  · next heq => rw [List.cons.injEq] at heq; exact absurd heq.1 hcb
  · rfl

/-- Every serialized value starts with a non-whitespace character that is not
a closing bracket. -/
theorem stringify_head (v : JsValue) :
    ∃ c t, jsonStringify v = c :: t ∧ isJsonWs c = false ∧ c ≠ ']' := by
  cases v with
  | null => exact ⟨'n', ['u', 'l', 'l'], by simp [jsonStringify], by decide, by decide⟩
  | bool b =>
    cases b with
    | false => exact ⟨'f', ['a', 'l', 's', 'e'], by simp [jsonStringify], by decide, by decide⟩
    | true => exact ⟨'t', ['r', 'u', 'e'], by simp [jsonStringify], by decide, by decide⟩
  | num n =>
    obtain ⟨c, t, hc, hd⟩ := intChars_cons n
    refine ⟨c, t, by simp [jsonStringify, hc], ?_, ?_⟩
    · rcases hd with hd | hd
      · subst hd; decide
      · exact isJsonWs_digit c hd
    · rcases hd with hd | hd
      · subst hd; decide
      · exact isDigitChar_ne c ']' hd (by decide)
  | str s =>
    exact ⟨'"', escBody s.data ++ ['"'], by simp [jsonStringify], by decide, by decide⟩
  | arr xs =>
    exact ⟨'[', stringifyElems xs ++ [']'], by simp [jsonStringify], by decide, by decide⟩
  | obj fs =>
    exact ⟨'\x7b', stringifyFields fs ++ ['\x7d'], by simp [jsonStringify], by decide, by decide⟩

/-- A nonempty serialized field list starts with a quote. -/
theorem stringifyFields_cons (k : String) (v : JsValue) (rest : List (String × JsValue)) :
    ∃ t, stringifyFields ((k, v) :: rest) = '"' :: t := by
  cases rest with
  | nil => exact ⟨escBody k.data ++ '"' :: ':' :: jsonStringify v, by simp [stringifyFields]⟩
  | cons q qs =>
    exact ⟨escBody k.data ++ '"' :: ':' :: jsonStringify v ++ ',' :: stringifyFields (q :: qs),
      by simp [stringifyFields]⟩

/-- The head of a printed number differs from every literal-prefix head. -/
theorem num_head_ne (c : Char) (hd : c = '-' ∨ isDigitChar c = true) :
    c ≠ 'n' ∧ c ≠ 't' ∧ c ≠ 'f' ∧ c ≠ '"' ∧ c ≠ '\x7b' ∧ c ≠ '[' := by
  rcases hd with hd | hd
  · subst hd
    exact ⟨by decide, by decide, by decide, by decide, by decide, by decide⟩
  · exact ⟨isDigitChar_ne c 'n' hd (by decide), isDigitChar_ne c 't' hd (by decide),
      isDigitChar_ne c 'f' hd (by decide), isDigitChar_ne c '"' hd (by decide),
      isDigitChar_ne c '\x7b' hd (by decide), isDigitChar_ne c '[' hd (by decide)⟩

/-- On a non-bracket head, `parseArrBody` parses elements. -/
theorem parseArrBody_default (fuel : Nat) (c : Char) (cs : List Char)
    (hws : isJsonWs c = false) (hcb : c ≠ ']') :
    parseArrBody (Nat.succ fuel) (c :: cs) =
      match parseElems fuel (c :: cs) with
      | some (vs, r) => some (.arr vs, r)
      | none => none := by
  simp only [parseArrBody, skipJsonWs_cons_not c cs hws]
  split
  · next heq => rw [List.cons.injEq] at heq; exact absurd heq.1 hcb
  · rfl

/-- On a non-brace head, `parseObjBody` parses members. -/
theorem parseObjBody_default (fuel : Nat) (c : Char) (cs : List Char)
    (hws : isJsonWs c = false) (hcb : c ≠ '\x7d') :
    parseObjBody (Nat.succ fuel) (c :: cs) =
      match parseMembers fuel (c :: cs) with
      | some (ps, r) => some (.obj (buildObj ps), r)
      | none => none := by
  simp only [parseObjBody, skipJsonWs_cons_not c cs hws]
  split
  · next heq => rw [List.cons.injEq] at heq; exact absurd heq.1 hcb
  · rfl

/-- Leading colon is kept by the whitespace skipper. -/
theorem skipJsonWs_colon (cs : List Char) : skipJsonWs (':' :: cs) = ':' :: cs := rfl

/-- Leading comma is kept by the whitespace skipper. -/
theorem skipJsonWs_comma (cs : List Char) : skipJsonWs (',' :: cs) = ',' :: cs := rfl

/-- Leading closing brace is kept by the whitespace skipper. -/
theorem skipJsonWs_rbrace (cs : List Char) : skipJsonWs ('\x7d' :: cs) = '\x7d' :: cs := rfl

/-- Leading closing bracket is kept by the whitespace skipper. -/
theorem skipJsonWs_rbrack (cs : List Char) : skipJsonWs (']' :: cs) = ']' :: cs := rfl

mutual

/-- Reparsing a serialized value with sufficient fuel yields the value back,
leaving the rest of the input untouched. -/
theorem parseVal_stringify (d : JsValue) (fuel : Nat) (rest : List Char)
    (hfuel : jfuel d ≤ fuel) (hrest : numStop rest = true) (hwf : wfDoc d = true) :
    parseVal fuel (jsonStringify d ++ rest) = some (d, rest) := by
  cases d with
  | null =>
    cases fuel with
    | zero => simp [jfuel] at hfuel
    | succ f =>
      rw [show jsonStringify .null = ['n', 'u', 'l', 'l'] from by simp [jsonStringify]]
      rfl
  | bool b =>
    cases fuel with
    | zero => simp [jfuel] at hfuel
    | succ f =>
      cases b with
      | false =>
        rw [show jsonStringify (.bool false) = ['f', 'a', 'l', 's', 'e'] from by
          simp [jsonStringify]]
        rfl
      | true =>
        rw [show jsonStringify (.bool true) = ['t', 'r', 'u', 'e'] from by
          simp [jsonStringify]]
        rfl
  | num n =>
    cases fuel with
    | zero => simp [jfuel] at hfuel
    | succ f =>
      rw [show jsonStringify (.num n) = intChars n from by simp [jsonStringify]]
      obtain ⟨c, t, hc, hd⟩ := intChars_cons n
      have hws : isJsonWs c = false := by
        rcases hd with hd | hd
        · subst hd; decide
        · exact isJsonWs_digit c hd
      obtain ⟨hn1, hn2, hn3, hn4, hn5, hn6⟩ := num_head_ne c hd
      rw [hc, List.cons_append,
        parseVal_default f c (t ++ rest) hws hn1 hn2 hn3 hn4 hn5 hn6,
        ← List.cons_append, ← hc, parseIntLit_intChars n rest hrest]
  | str s =>
    cases fuel with
    | zero => simp [jfuel] at hfuel
    | succ f =>
      rw [show jsonStringify (.str s) ++ rest
          = '"' :: (escBody s.data ++ '"' :: rest) from by simp [jsonStringify]]
      rw [show parseVal (Nat.succ f) ('"' :: (escBody s.data ++ '"' :: rest))
          = (match parseStrChars (escBody s.data ++ '"' :: rest) with
             | some (body, r) => some (.str (String.mk body), r)
             | none => none) from rfl]
      rw [parseStrChars_escBody s.data rest]
  | arr xs =>
    have hfuel2 : 2 + efuel xs ≤ fuel := by
      simpa [jfuel] using hfuel
    have hwfe : wfElems xs = true := by simpa [wfDoc] using hwf
    cases fuel with
    | zero => omega
    | succ f =>
      rw [show jsonStringify (.arr xs) ++ rest
          = '[' :: (stringifyElems xs ++ ']' :: rest) from by simp [jsonStringify]]
      rw [show parseVal (Nat.succ f) ('[' :: (stringifyElems xs ++ ']' :: rest))
          = parseArrBody f (stringifyElems xs ++ ']' :: rest) from rfl]
      cases xs with
      | nil =>
        rw [show stringifyElems ([] : List JsValue) = [] from by simp [stringifyElems]]
        cases f with
        | zero => omega
        | succ f2 => rfl
      | cons v vs =>
        obtain ⟨c, t, hc, hcws, hcnb⟩ := stringify_head v
        have hhead : ∃ t2, stringifyElems (v :: vs) = c :: t2 := by
          cases vs with
          | nil => exact ⟨t, by simp [stringifyElems, hc]⟩
          | cons v2 vs2 =>
            exact ⟨t ++ ',' :: stringifyElems (v2 :: vs2), by simp [stringifyElems, hc]⟩
        obtain ⟨t2, ht2⟩ := hhead
        cases f with
        | zero => omega
        | succ f2 =>
          rw [ht2, List.cons_append, parseArrBody_default f2 c (t2 ++ ']' :: rest) hcws hcnb,
            ← List.cons_append, ← ht2,
            parseElems_stringify (v :: vs) (by simp) f2 rest (by omega) hwfe]
  | obj fs =>
    have hfuel2 : 2 + ffuel fs ≤ fuel := by
      simpa [jfuel] using hfuel
    have hwff : wfFields fs = true := by simpa [wfDoc] using hwf
    cases fuel with
    | zero => omega
    | succ f =>
      rw [show jsonStringify (.obj fs) ++ rest
          = '\x7b' :: (stringifyFields fs ++ '\x7d' :: rest) from by simp [jsonStringify]]
      rw [show parseVal (Nat.succ f) ('\x7b' :: (stringifyFields fs ++ '\x7d' :: rest))
          = parseObjBody f (stringifyFields fs ++ '\x7d' :: rest) from rfl]
      cases fs with
      | nil =>
        rw [show stringifyFields ([] : List (String × JsValue)) = [] from by
          simp [stringifyFields]]
        cases f with
        | zero => omega
        | succ f2 => rfl
      | cons q qs =>
        obtain ⟨k, v⟩ := q
        obtain ⟨t, ht⟩ := stringifyFields_cons k v qs
        cases f with
        | zero => omega
        | succ f2 =>
          rw [ht, List.cons_append,
            parseObjBody_default f2 '"' (t ++ '\x7d' :: rest) (by decide) (by decide),
            ← List.cons_append, ← ht,
            parseMembers_stringify ((k, v) :: qs) (by simp) f2 rest (by omega) hwff]
          simp [buildObj_eq_self ((k, v) :: qs) hwff]

/-- Reparsing serialized object members yields the textual field list back. -/
theorem parseMembers_stringify (fs : List (String × JsValue)) (hne : fs ≠ [])
    (fuel : Nat) (rest : List Char) (hfuel : ffuel fs ≤ fuel)
    (hwf : wfFields fs = true) :
    parseMembers fuel (stringifyFields fs ++ '\x7d' :: rest) = some (fs, rest) := by
  cases fs with
  | nil => exact absurd rfl hne
  | cons q qs =>
    obtain ⟨k, v⟩ := q
    simp only [ffuel] at hfuel
    simp only [wfFields, Bool.and_eq_true] at hwf
    obtain ⟨⟨hkni, hwfv⟩, hwfr⟩ := hwf
    cases fuel with
    | zero => omega
    | succ f =>
      cases qs with
      | nil =>
        rw [show stringifyFields [(k, v)] ++ '\x7d' :: rest
            = '"' :: (escBody k.data ++ '"' :: (':' :: (jsonStringify v ++ '\x7d' :: rest)))
            from by simp [stringifyFields]]
        rw [show parseMembers (Nat.succ f)
              ('"' :: (escBody k.data ++ '"' :: (':' :: (jsonStringify v ++ '\x7d' :: rest))))
            = (match parseStrChars (escBody k.data ++ '"' :: (':' :: (jsonStringify v ++ '\x7d' :: rest))) with
               | none => none
               | some (kcs, r1) =>
                 match skipJsonWs r1 with
                 | ':' :: r2 =>
                   match parseVal f r2 with
                   | none => none
                   | some (v2, r3) =>
                     match skipJsonWs r3 with
                     | ',' :: r4 =>
                       match parseMembers f r4 with
                       | some (ps, r) => some ((String.mk kcs, v2) :: ps, r)
                       | none => none
                     | '\x7d' :: r4 => some ([(String.mk kcs, v2)], r4)
                     | _ => none
                 | _ => none) from rfl]
        rw [parseStrChars_escBody k.data (':' :: (jsonStringify v ++ '\x7d' :: rest))]
        simp [skipJsonWs_colon, skipJsonWs_rbrace,
          parseVal_stringify v f ('\x7d' :: rest) (by omega) (by rfl) hwfv]
      | cons q2 qs2 =>
        rw [show stringifyFields ((k, v) :: q2 :: qs2) ++ '\x7d' :: rest
            = '"' :: (escBody k.data ++ '"' :: (':' :: (jsonStringify v
                ++ ',' :: (stringifyFields (q2 :: qs2) ++ '\x7d' :: rest))))
            from by simp [stringifyFields]]
        rw [show parseMembers (Nat.succ f)
              ('"' :: (escBody k.data ++ '"' :: (':' :: (jsonStringify v
                ++ ',' :: (stringifyFields (q2 :: qs2) ++ '\x7d' :: rest)))))
            = (match parseStrChars (escBody k.data ++ '"' :: (':' :: (jsonStringify v
                ++ ',' :: (stringifyFields (q2 :: qs2) ++ '\x7d' :: rest)))) with
               | none => none
               | some (kcs, r1) =>
                 match skipJsonWs r1 with
                 | ':' :: r2 =>
                   match parseVal f r2 with
                   | none => none
                   | some (v2, r3) =>
                     match skipJsonWs r3 with
                     | ',' :: r4 =>
                       match parseMembers f r4 with
                       | some (ps, r) => some ((String.mk kcs, v2) :: ps, r)
                       | none => none
                     | '\x7d' :: r4 => some ([(String.mk kcs, v2)], r4)
                     | _ => none
                 | _ => none) from rfl]
        rw [parseStrChars_escBody k.data
          (':' :: (jsonStringify v ++ ',' :: (stringifyFields (q2 :: qs2) ++ '\x7d' :: rest)))]
        simp [skipJsonWs_colon, skipJsonWs_comma,
          parseVal_stringify v f
            (',' :: (stringifyFields (q2 :: qs2) ++ '\x7d' :: rest)) (by omega) (by rfl) hwfv,
          parseMembers_stringify (q2 :: qs2) (by simp) f rest (by omega) hwfr]

/-- Reparsing serialized array elements yields the element list back. -/
theorem parseElems_stringify (xs : List JsValue) (hne : xs ≠ [])
    (fuel : Nat) (rest : List Char) (hfuel : efuel xs ≤ fuel)
    (hwf : wfElems xs = true) :
    parseElems fuel (stringifyElems xs ++ ']' :: rest) = some (xs, rest) := by
  cases xs with
  | nil => exact absurd rfl hne
  | cons v vs =>
    simp only [efuel] at hfuel
    simp only [wfElems, Bool.and_eq_true] at hwf
    obtain ⟨hwfv, hwfr⟩ := hwf
    cases fuel with
    | zero => omega
    | succ f =>
      cases vs with
      | nil =>
        rw [show stringifyElems [v] ++ ']' :: rest = jsonStringify v ++ ']' :: rest from by
          simp [stringifyElems]]
        rw [show parseElems (Nat.succ f) (jsonStringify v ++ ']' :: rest)
            = (match parseVal f (jsonStringify v ++ ']' :: rest) with
               | none => none
               | some (v2, r1) =>
                 match skipJsonWs r1 with
                 | ',' :: r2 =>
                   match parseElems f r2 with
                   | some (vs2, r) => some (v2 :: vs2, r)
                   | none => none
                 | ']' :: r2 => some ([v2], r2)
                 | _ => none) from rfl]
        simp [parseVal_stringify v f (']' :: rest) (by omega) (by rfl) hwfv,
          skipJsonWs_rbrack]
      | cons v2 vs2 =>
        rw [show stringifyElems (v :: v2 :: vs2) ++ ']' :: rest
            = jsonStringify v ++ ',' :: (stringifyElems (v2 :: vs2) ++ ']' :: rest) from by
          simp [stringifyElems]]
        rw [show parseElems (Nat.succ f)
              (jsonStringify v ++ ',' :: (stringifyElems (v2 :: vs2) ++ ']' :: rest))
            = (match parseVal f (jsonStringify v
                  ++ ',' :: (stringifyElems (v2 :: vs2) ++ ']' :: rest)) with
               | none => none
               | some (v3, r1) =>
                 match skipJsonWs r1 with
                 | ',' :: r2 =>
                   match parseElems f r2 with
                   | some (vs3, r) => some (v3 :: vs3, r)
                   | none => none
                 | ']' :: r2 => some ([v3], r2)
                 | _ => none) from rfl]
        simp [parseVal_stringify v f
            (',' :: (stringifyElems (v2 :: vs2) ++ ']' :: rest)) (by omega) (by rfl) hwfv,
          skipJsonWs_comma,
          parseElems_stringify (v2 :: vs2) (by simp) f rest (by omega) hwfr]

end

mutual

/-- The required fuel of a value is dominated by its serialized length. -/
theorem jfuel_le (d : JsValue) : jfuel d ≤ 2 * (jsonStringify d).length + 1 := by
  cases d with
  | null => simp [jfuel, jsonStringify]
  | bool b => cases b <;> simp [jfuel, jsonStringify]
  | num n =>
    obtain ⟨c, t, hc, _⟩ := intChars_cons n
    simp [jfuel, jsonStringify, hc]
  | str s => simp [jfuel, jsonStringify]
  | arr xs =>
    have := efuel_le xs
    simp only [jfuel, jsonStringify, List.length_cons, List.length_append,
      List.length_singleton]
    omega
  | obj fs =>
    have := ffuel_le fs
    simp only [jfuel, jsonStringify, List.length_cons, List.length_append,
      List.length_singleton]
    omega

/-- The required fuel of a field list is dominated by its serialized length. -/
theorem ffuel_le (fs : List (String × JsValue)) :
    ffuel fs ≤ 2 * (stringifyFields fs).length + 3 := by
  cases fs with
  | nil => simp [ffuel, stringifyFields]
  | cons q qs =>
    obtain ⟨k, v⟩ := q
    have hv := jfuel_le v
    cases qs with
    | nil =>
      simp only [ffuel, stringifyFields, List.length_cons, List.length_append]
      omega
    | cons q2 qs2 =>
      have hr := ffuel_le (q2 :: qs2)
      rw [show ffuel ((k, v) :: q2 :: qs2) = 1 + jfuel v + ffuel (q2 :: qs2) from rfl,
        show stringifyFields ((k, v) :: q2 :: qs2)
          = ('"' :: escBody k.data ++ '"' :: ':' :: jsonStringify v)
            ++ ',' :: stringifyFields (q2 :: qs2) from rfl]
      simp only [List.length_append, List.length_cons]
      omega

/-- The required fuel of an element list is dominated by its serialized
length. -/
theorem efuel_le (xs : List JsValue) :
    efuel xs ≤ 2 * (stringifyElems xs).length + 3 := by
  cases xs with
  | nil => simp [efuel, stringifyElems]
  | cons v vs =>
    have hv := jfuel_le v
    cases vs with
    | nil =>
      simp only [efuel, stringifyElems]
      omega
    | cons v2 vs2 =>
      have hr := efuel_le (v2 :: vs2)
      rw [show efuel (v :: v2 :: vs2) = 1 + jfuel v + efuel (v2 :: vs2) from rfl,
        show stringifyElems (v :: v2 :: vs2)
          = jsonStringify v ++ ',' :: stringifyElems (v2 :: vs2) from rfl]
      simp only [List.length_append, List.length_cons]
      omega

end

/-- The embedded `JSON.parse` inverts the embedded `JSON.stringify` on every
document with distinct keys. -/
theorem parseJsonChars_stringify (d : JsValue) (hwf : wfDoc d = true) :
    parseJsonChars (jsonStringify d) = some d := by
  unfold parseJsonChars
  have hb := jfuel_le d
  have h := parseVal_stringify d (2 * (jsonStringify d).length + 8) [] (by omega) rfl hwf
  rw [List.append_nil] at h
  rw [h]
  rfl

/-- A cons with a non-backtick head keeps `noTripleTick`. -/
theorem noTripleTick_cons (c : Char) (cs : List Char) (hc : c ≠ '\x60')
    (h : noTripleTick cs = true) : noTripleTick (c :: cs) = true := by
  simp [noTripleTick, hc, h]

/-- The tail of a fence-free list is fence-free. -/
theorem noTripleTick_tail (c : Char) (cs : List Char)
    (h : noTripleTick (c :: cs) = true) : noTripleTick cs = true := by
  simp only [noTripleTick, Bool.and_eq_true] at h
  exact h.2

/-- A prefix made only of non-backtick characters keeps `noTripleTick`. -/
theorem ntt_of_append_left (a b : List Char) (ha : ∀ x ∈ a, x ≠ '\x60')
    (hb : noTripleTick b = true) : noTripleTick (a ++ b) = true := by
  induction a with
  | nil => simpa
  | cons c cs ih =>
    exact noTripleTick_cons c _ (ha c (by simp)) (ih (fun x hx => ha x (by simp [hx])))

/-- A list without backticks is fence-free. -/
theorem ntt_of_no_tick (a : List Char) (ha : ∀ x ∈ a, x ≠ '\x60') :
    noTripleTick a = true := by
  have := ntt_of_append_left a [] ha rfl
  simpa using this

/-- Joining two fence-free lists over a non-backtick separator stays
fence-free: a spanning triple would have to contain the separator. -/
theorem ntt_append_sep (a : List Char) (c : Char) (b : List Char)
    (ha : noTripleTick a = true) (hc : c ≠ '\x60') (hb : noTripleTick b = true) :
    noTripleTick (a ++ c :: b) = true := by
  induction a with
  | nil => exact noTripleTick_cons c b hc hb
  | cons x xs ih =>
    have htail : noTripleTick (xs ++ c :: b) = true :=
      ih (noTripleTick_tail x xs ha)
    by_cases hx : x = '\x60'
    · subst hx
      simp only [noTripleTick, Bool.and_eq_true, Bool.not_eq_true'] at ha
      have hpre : isPrefixL ['\x60', '\x60'] xs = false := by
        rcases Bool.and_eq_false_iff.mp ha.1 with h | h
        · simp at h
        · exact h
      have hpre2 : isPrefixL ['\x60', '\x60'] (xs ++ c :: b) = false := by
        cases xs with
        | nil =>
          simp only [List.nil_append, isPrefixL]
          simp only [Bool.and_eq_false_iff, decide_eq_false_iff_not]
          exact Or.inl (fun he => hc he.symm)
        | cons y ys =>
          cases ys with
          | nil =>
            simp only [List.cons_append, List.nil_append, isPrefixL]
            simp only [Bool.and_eq_false_iff, decide_eq_false_iff_not]
            refine Or.inr (Or.inl (fun he => hc he.symm))
          | cons z zs =>
            simp only [isPrefixL] at hpre
            simp only [List.cons_append, isPrefixL]
            exact hpre
        
      show noTripleTick ('\x60' :: (xs ++ c :: b)) = true
      simp [noTripleTick, hpre2, htail]
    · exact noTripleTick_cons x _ hx htail

/-- Hexadecimal digit characters are not backticks. -/
theorem hexChar_ne_tick : ∀ k, k < 16 → hexChar k ≠ '\x60' := by decide

/-- The escape of a non-backtick character contains no backtick. -/
theorem escChar_no_tick (c : Char) (hc : c ≠ '\x60') : ∀ x ∈ escChar c, x ≠ '\x60' := by
  unfold escChar
  by_cases h1 : c = '"'
  · rw [if_pos h1]; intro x hx; rcases (by simpa using hx : x = '\\' ∨ x = '"') with h | h <;>
      subst h <;> decide
  rw [if_neg h1]
  by_cases h2 : c = '\\'
  · rw [if_pos h2]; intro x hx; rcases (by simpa using hx : x = '\\' ∨ x = '\\') with h | h <;>
      subst h <;> decide
  rw [if_neg h2]
  by_cases h3 : c = '\x08'
  · rw [if_pos h3]; intro x hx; rcases (by simpa using hx : x = '\\' ∨ x = 'b') with h | h <;>
      subst h <;> decide
  rw [if_neg h3]
  by_cases h4 : c = '\x0c'
  · rw [if_pos h4]; intro x hx; rcases (by simpa using hx : x = '\\' ∨ x = 'f') with h | h <;>
      subst h <;> decide
  rw [if_neg h4]
  by_cases h5 : c = '\n'
  · rw [if_pos h5]; intro x hx; rcases (by simpa using hx : x = '\\' ∨ x = 'n') with h | h <;>
      subst h <;> decide
  rw [if_neg h5]
  by_cases h6 : c = '\r'
  · rw [if_pos h6]; intro x hx; rcases (by simpa using hx : x = '\\' ∨ x = 'r') with h | h <;>
      subst h <;> decide
  rw [if_neg h6]
  by_cases h7 : c = '\t'
  · rw [if_pos h7]; intro x hx; rcases (by simpa using hx : x = '\\' ∨ x = 't') with h | h <;>
      subst h <;> decide
  rw [if_neg h7]
  by_cases h8 : c.toNat < 32
  · rw [if_pos h8]
    intro x hx
    rcases (by simpa using hx :
        x = '\\' ∨ x = 'u' ∨ x = '0' ∨ x = '0' ∨ x = hexChar (c.toNat / 16)
          ∨ x = hexChar (c.toNat % 16)) with h | h | h | h | h | h
    · subst h; decide
    · subst h; decide
    · subst h; decide
    · subst h; decide
    · subst h; exact hexChar_ne_tick _ (by omega)
    · subst h; exact hexChar_ne_tick _ (by omega)
  · rw [if_neg h8]
    intro x hx
    rcases (by simpa using hx : x = c) with h
    subst h
    exact hc

/-- The escape of any character is nonempty. -/
theorem escChar_ne_nil (c : Char) : escChar c ≠ [] := by
  unfold escChar
  repeat' split
  all_goals simp

/-- Pushing a backtick onto a list with no double-backtick prefix keeps
fence-freeness. -/
theorem ntt_tick_cons (X : List Char) (hX : isPrefixL ['\x60', '\x60'] X = false)
    (hntt : noTripleTick X = true) : noTripleTick ('\x60' :: X) = true := by
  simp [noTripleTick, hX, hntt]

/-- A list whose head is not a backtick has no double-backtick prefix. -/
theorem prefix2_false_of_head (d : Char) (X : List Char) (hd : d ≠ '\x60') :
    isPrefixL ['\x60', '\x60'] (d :: X) = false := by
  simp only [isPrefixL, Bool.and_eq_false_iff, decide_eq_false_iff_not]
  exact Or.inl (fun he => hd he.symm)

/-- A list whose head is not a backtick has no backtick prefix. -/
theorem prefix1_false_of_head (d : Char) (X : List Char) (hd : d ≠ '\x60') :
    isPrefixL ['\x60'] (d :: X) = false := by
  simp only [isPrefixL, Bool.and_eq_false_iff, decide_eq_false_iff_not]
  exact Or.inl (fun he => hd he.symm)

/-- The body of an escaped non-backtick-headed source starts with a
non-backtick. -/
theorem escBody_head (c : Char) (cs : List Char) (hc : c ≠ '\x60') :
    ∃ d ds, escBody (c :: cs) = d :: ds ∧ d ≠ '\x60' := by
  rw [show escBody (c :: cs) = escChar c ++ escBody cs from rfl]
  cases hesc : escChar c with
  | nil => exact absurd hesc (escChar_ne_nil c)
  | cons d ds =>
    exact ⟨d, ds ++ escBody cs, by simp,
      escChar_no_tick c hc d (by rw [hesc]; simp)⟩

/-- Escaping preserves fence-freeness: escapes introduce no backticks and
backtick runs in the body correspond to runs in the source. -/
theorem escBody_ntt (cs : List Char) (h : noTripleTick cs = true) :
    noTripleTick (escBody cs) = true := by
  induction cs with
  | nil => rfl
  | cons c cs ih =>
    have htail : noTripleTick (escBody cs) = true := ih (noTripleTick_tail c cs h)
    by_cases hc : c = '\x60'
    · subst hc
      rw [show escBody ('\x60' :: cs) = '\x60' :: escBody cs from rfl]
      apply ntt_tick_cons _ ?_ htail
      cases cs with
      | nil => rfl
      | cons c2 cs2 =>
        by_cases hc2 : c2 = '\x60'
        · subst hc2
          rw [show escBody ('\x60' :: cs2) = '\x60' :: escBody cs2 from rfl]
          simp only [isPrefixL]
          cases cs2 with
          | nil => simp [escBody, isPrefixL]
          | cons c3 cs3 =>
            have hc3 : c3 ≠ '\x60' := by
              intro he
              subst he
              simp [noTripleTick, isPrefixL] at h
            obtain ⟨d, ds, hds, hd⟩ := escBody_head c3 cs3 hc3
            rw [hds, prefix1_false_of_head d ds hd]
            simp
        · obtain ⟨d, ds, hds, hd⟩ := escBody_head c2 cs2 hc2
          rw [hds]
          exact prefix2_false_of_head d ds hd
    · rw [show escBody (c :: cs) = escChar c ++ escBody cs from rfl]
      exact ntt_of_append_left _ _ (escChar_no_tick c hc) htail

mutual

/-- A fence-free document serializes without triple backticks. -/
theorem ntt_stringify (d : JsValue) (h : fenceFree d = true) :
    noTripleTick (jsonStringify d) = true := by
  cases d with
  | null => decide
  | bool b => cases b <;> decide
  | num n =>
    apply ntt_of_no_tick
    intro x hx
    rw [show jsonStringify (.num n) = intChars n from rfl] at hx
    unfold intChars at hx
    by_cases hn : n < 0
    · rw [if_pos hn] at hx
      rcases List.mem_cons.mp hx with hx | hx
      · subst hx; decide
      · exact isDigitChar_ne x '\x60' (natChars_all_digits _ x hx) (by decide)
    · rw [if_neg hn] at hx
      exact isDigitChar_ne x '\x60' (natChars_all_digits _ x hx) (by decide)
  | str s =>
    have hb : noTripleTick (escBody s.data) = true :=
      escBody_ntt s.data (by simpa [fenceFree] using h)
    rw [show jsonStringify (.str s) = '"' :: (escBody s.data ++ ['"']) from by
      simp [jsonStringify]]
    refine noTripleTick_cons _ _ (by decide) ?_
    exact ntt_append_sep _ '"' [] hb (by decide) rfl
  | arr xs =>
    have he := ntt_elems xs (by simpa [fenceFree] using h)
    rw [show jsonStringify (.arr xs) = '[' :: (stringifyElems xs ++ [']']) from by
      simp [jsonStringify]]
    refine noTripleTick_cons _ _ (by decide) ?_
    exact ntt_append_sep _ ']' [] he (by decide) rfl
  | obj fs =>
    have hf := ntt_fields fs (by simpa [fenceFree] using h)
    rw [show jsonStringify (.obj fs) = '\x7b' :: (stringifyFields fs ++ ['\x7d']) from by
      simp [jsonStringify]]
    refine noTripleTick_cons _ _ (by decide) ?_
    exact ntt_append_sep _ '\x7d' [] hf (by decide) rfl

/-- Fence-free fields serialize without triple backticks. -/
theorem ntt_fields (fs : List (String × JsValue)) (h : fenceFreeFields fs = true) :
    noTripleTick (stringifyFields fs) = true := by
  cases fs with
  | nil => rfl
  | cons q qs =>
    obtain ⟨k, v⟩ := q
    simp only [fenceFreeFields, Bool.and_eq_true] at h
    obtain ⟨⟨hk, hv⟩, hr⟩ := h
    have hkb : noTripleTick (escBody k.data) = true := escBody_ntt k.data hk
    have hvb := ntt_stringify v hv
    cases qs with
    | nil =>
      rw [show stringifyFields [(k, v)]
          = '"' :: (escBody k.data ++ '"' :: (':' :: jsonStringify v)) from by
        simp [stringifyFields]]
      refine noTripleTick_cons _ _ (by decide) ?_
      refine ntt_append_sep _ '"' _ hkb (by decide) ?_
      exact noTripleTick_cons _ _ (by decide) hvb
    | cons q2 qs2 =>
      have hrb := ntt_fields (q2 :: qs2) hr
      rw [show stringifyFields ((k, v) :: q2 :: qs2)
          = '"' :: (escBody k.data
              ++ '"' :: (':' :: (jsonStringify v ++ ',' :: stringifyFields (q2 :: qs2))))
          from by simp [stringifyFields]]
      refine noTripleTick_cons _ _ (by decide) ?_
      refine ntt_append_sep _ '"' _ hkb (by decide) ?_
      refine noTripleTick_cons _ _ (by decide) ?_
      exact ntt_append_sep _ ',' _ hvb (by decide) hrb

/-- Fence-free elements serialize without triple backticks. -/
theorem ntt_elems (xs : List JsValue) (h : fenceFreeElems xs = true) :
    noTripleTick (stringifyElems xs) = true := by
  cases xs with
  | nil => rfl
  | cons v vs =>
    simp only [fenceFreeElems, Bool.and_eq_true] at h
    obtain ⟨hv, hr⟩ := h
    have hvb := ntt_stringify v hv
    cases vs with
    | nil => simpa [stringifyElems] using hvb
    | cons v2 vs2 =>
      have hrb := ntt_elems (v2 :: vs2) hr
      rw [show stringifyElems (v :: v2 :: vs2)
          = jsonStringify v ++ ',' :: stringifyElems (v2 :: vs2) from rfl]
      exact ntt_append_sep _ ',' _ hvb (by decide) hrb

end


/-- Lowercasing an ASCII uppercase letter never yields a backtick. -/
theorem toLower_upper_ne_tick :
    ∀ n, n < 91 → 65 ≤ n → (Char.ofNat n).toLower ≠ '\x60' := by decide

/-- Only the backtick lowercases to a backtick. -/
theorem toLower_eq_tick (c : Char) (h : c.toLower = '\x60') : c = '\x60' := by
  by_cases hu : 65 ≤ c.toNat ∧ c.toNat ≤ 90
  · exfalso
    have h2 := toLower_upper_ne_tick c.toNat (by omega) hu.1
    rw [Char.ofNat_toNat] at h2
    exact h2 h
  · unfold Char.toLower at h
    rw [if_neg] at h
    · exact h
    · simpa using hu

/-- The case-insensitive scanner cannot match a fence pattern (three leading
backticks) anywhere a fence-free text offers fewer than three of them. -/
theorem matchCI_fence3_none (ps cs : List Char) (h : noTripleTick cs = true) :
    matchCI ('\x60' :: '\x60' :: '\x60' :: ps) cs = none := by
  match cs with
  | [] => rfl
  | c :: rest =>
    by_cases hc : c = '\x60'
    · subst hc
      simp only [noTripleTick, Bool.and_eq_true, Bool.not_eq_true'] at h
      have hpre : isPrefixL ['\x60', '\x60'] rest = false := by
        rcases Bool.and_eq_false_iff.mp h.1 with h2 | h2
        · simp at h2
        · exact h2
      rw [show matchCI ('\x60' :: '\x60' :: '\x60' :: ps) ('\x60' :: rest)
          = matchCI ('\x60' :: '\x60' :: ps) rest from by simp [matchCI]]
      match rest, hpre with
      | [], _ => rfl
      | r1 :: rest2, hpre =>
        by_cases hr1 : r1 = '\x60'
        · subst hr1
          simp only [isPrefixL, decide_True, Bool.true_and] at hpre
          rw [show matchCI ('\x60' :: '\x60' :: ps) ('\x60' :: rest2)
              = matchCI ('\x60' :: ps) rest2 from by simp [matchCI]]
          match rest2, hpre with
          | [], _ => rfl
          | r2 :: rest3, hpre =>
            simp only [isPrefixL, Bool.and_true] at hpre
            simp only [matchCI]
            rw [if_neg]
            intro he
            have h3 := toLower_eq_tick r2 he
            rw [h3] at hpre
            simp at hpre
        · simp only [matchCI]
          rw [if_neg]
          intro he
          exact hr1 (toLower_eq_tick r1 he)
    · simp only [matchCI]
      rw [if_neg]
      intro he
      exact hc (toLower_eq_tick c he)

/-- The global fence-replacement scan is the identity on fence-free text. -/
theorem stripFenceAux_id (fuel : Nat) (ps : List Char) :
    ∀ cs : List Char, noTripleTick cs = true →
      stripFenceAux fuel ('\x60' :: '\x60' :: '\x60' :: ps) cs = cs := by
  induction fuel with
  | zero => intro cs _; rfl
  | succ fuel ih =>
    intro cs h
    cases cs with
    | nil => rfl
    | cons c rest =>
      simp only [stripFenceAux, matchCI_fence3_none ps (c :: rest) h]
      rw [ih rest (noTripleTick_tail c rest h)]

/-- `stripFence` with the json-fence pattern is the identity on fence-free
text. -/
theorem stripFence_json_id (cs : List Char) (h : noTripleTick cs = true) :
    stripFence fenceJsonPat cs = cs :=
  stripFenceAux_id (cs.length + 1) ['j', 's', 'o', 'n'] cs h

/-- `stripFence` with the bare-fence pattern is the identity on fence-free
text. -/
theorem stripFence_plain_id (cs : List Char) (h : noTripleTick cs = true) :
    stripFence fencePat cs = cs :=
  stripFenceAux_id (cs.length + 1) [] cs h

/-- The anchored boilerplate regex never matches text that opens with a brace
or bracket, so `stripBoiler` leaves it unchanged. -/
theorem stripBoiler_head_id (c : Char) (cs : List Char)
    (h : c = '\x7b' ∨ c = '[') : stripBoiler (c :: cs) = c :: cs := by
  rcases h with h | h <;> subst h <;> rfl


/-- `String.trim` is the identity when neither end is whitespace. -/
theorem jsTrim_sandwich (c : Char) (mid : List Char) (d : Char)
    (hc : isJsWs c = false) (hd : isJsWs d = false) :
    jsTrim (c :: (mid ++ [d])) = c :: (mid ++ [d]) := by
  unfold jsTrim
  rw [List.dropWhile_cons_of_neg (by simp [hc])]
  rw [show (c :: (mid ++ [d])).reverse = d :: (mid.reverse ++ [c]) from by simp]
  rw [List.dropWhile_cons_of_neg (by simp [hd])]
  simp

/-- `indexOf` finds the head immediately. -/
theorem jsIndexOf_head (c : Char) (cs : List Char) : jsIndexOf (c :: cs) c = 0 := by
  simp [jsIndexOf, List.findIdx?_cons]

/-- `indexOf` never returns less than `-1`. -/
theorem jsIndexOf_ge (cs : List Char) (x : Char) : -1 ≤ jsIndexOf cs x := by
  unfold jsIndexOf
  cases h : cs.findIdx? (fun y => y = x) with
  | none => simp
  | some i => simp; omega

/-- `lastIndexOf` of the final character is the last position. -/
theorem jsLastIndexOf_concat (cs : List Char) (d : Char) :
    jsLastIndexOf (cs ++ [d]) d = (cs.length : Int) := by
  unfold jsLastIndexOf
  rw [show (cs ++ [d]).reverse = d :: cs.reverse from by simp]
  rw [show List.findIdx? (fun y => y = d) (d :: cs.reverse) = some 0 from by
    simp [List.findIdx?_cons]]
  simp

/-- `lastIndexOf` is below the length. -/
theorem jsLastIndexOf_lt (cs : List Char) (x : Char) :
    jsLastIndexOf cs x < (cs.length : Int) := by
  unfold jsLastIndexOf
  cases h : cs.reverse.findIdx? (fun y => y = x) with
  | none => simp; omega
  | some i => simp; omega

/-- `substring(0, length)` is the identity. -/
theorem jsSubstring_full (cs : List Char) : jsSubstring cs 0 cs.length = cs := by
  simp [jsSubstring]


/-- The start-index selection in `sanitizeJSON` returns 0 whenever one of the
two index lookups already found its character at position 0. -/
theorem sanitize_start_eq (fb fk : Int) (h0 : fb = 0 ∨ fk = 0)
    (hfb : -1 ≤ fb) (hfk : -1 ≤ fk) :
    (if fb != -1 && fk != -1 then min fb fk
      else if fb != -1 then fb else if fk != -1 then fk else -1) = 0 := by
  split
  · next hc =>
    simp only [Bool.and_eq_true, bne_iff_ne] at hc
    omega
  · next hc =>
    simp only [Bool.and_eq_true, bne_iff_ne] at hc
    split
    · next hc2 =>
      simp only [bne_iff_ne] at hc2
      omega
    · next hc2 =>
      simp only [bne_iff_ne] at hc2
      split
      · next hc3 =>
        simp only [bne_iff_ne] at hc3
        omega
      · next hc3 =>
        simp only [bne_iff_ne] at hc3
        omega

/-- `sanitizeJSON` is the identity on nonempty fence-free text that opens with
a brace or bracket and closes with a brace or bracket: every cleaning stage
leaves it unchanged and the final substring cut spans the whole text. -/
theorem sanitizeJSON_sandwich (a : Char) (mid : List Char) (b : Char)
    (ha : a = '\x7b' ∨ a = '[') (hb : b = '\x7d' ∨ b = ']')
    (hntt : noTripleTick (a :: (mid ++ [b])) = true) :
    sanitizeJSON (String.mk (a :: (mid ++ [b])))
      = .ok (String.mk (a :: (mid ++ [b]))) := by
  have hne : ¬ (String.mk (a :: (mid ++ [b])) = "") := by simp [String.ext_iff]
  have haw : isJsWs a = false := by rcases ha with h | h <;> subst h <;> rfl
  have hbw : isJsWs b = false := by rcases hb with h | h <;> subst h <;> rfl
  have h1 : stripFence fenceJsonPat (a :: (mid ++ [b])) = a :: (mid ++ [b]) :=
    stripFence_json_id _ hntt
  have h2 : stripFence fencePat (a :: (mid ++ [b])) = a :: (mid ++ [b]) :=
    stripFence_plain_id _ hntt
  have h3 : stripBoiler (a :: (mid ++ [b])) = a :: (mid ++ [b]) :=
    stripBoiler_head_id a _ ha
  have h4 : jsTrim (a :: (mid ++ [b])) = a :: (mid ++ [b]) :=
    jsTrim_sandwich a mid b haw hbw
  have h0 : jsIndexOf (a :: (mid ++ [b])) '\x7b' = 0
      ∨ jsIndexOf (a :: (mid ++ [b])) '[' = 0 := by
    rcases ha with h | h <;> subst h
    · exact Or.inl (jsIndexOf_head _ _)
    · exact Or.inr (jsIndexOf_head _ _)
  have hstart := sanitize_start_eq (jsIndexOf (a :: (mid ++ [b])) '\x7b')
    (jsIndexOf (a :: (mid ++ [b])) '[') h0 (jsIndexOf_ge _ _) (jsIndexOf_ge _ _)
  have hend : max (jsLastIndexOf (a :: (mid ++ [b])) '\x7d')
      (jsLastIndexOf (a :: (mid ++ [b])) ']') = (mid.length : Int) + 1 := by
    rcases hb with h | h <;> subst h
    · have he1 : jsLastIndexOf (a :: (mid ++ ['\x7d'])) '\x7d'
          = (mid.length : Int) + 1 := by
        rw [show a :: (mid ++ ['\x7d']) = (a :: mid) ++ ['\x7d'] from by simp,
          jsLastIndexOf_concat]
        simp
      have he2 := jsLastIndexOf_lt (a :: (mid ++ ['\x7d'])) ']'
      simp only [List.length_cons, List.length_append, List.length_singleton,
        List.length_nil] at he2
      rw [he1]
      refine max_eq_left ?_
      push_cast at he2 ⊢
      omega
    · have he1 : jsLastIndexOf (a :: (mid ++ [']'])) ']'
          = (mid.length : Int) + 1 := by
        rw [show a :: (mid ++ [']']) = (a :: mid) ++ [']'] from by simp,
          jsLastIndexOf_concat]
        simp
      have he2 := jsLastIndexOf_lt (a :: (mid ++ [']'])) '\x7d'
      simp only [List.length_cons, List.length_append, List.length_singleton,
        List.length_nil] at he2
      rw [he1]
      refine max_eq_right ?_
      push_cast at he2 ⊢
      omega
  have hpos : (0 : Int) < (mid.length : Int) + 1 := by positivity
  have ht0 : ((0 : Int)).toNat = 0 := rfl
  have ht1 : (((mid.length : Int)) + 1).toNat = mid.length + 1 := by omega
  have hsub : jsSubstring (a :: (mid ++ [b])) 0 (mid.length + 1 + 1)
      = a :: (mid ++ [b]) := by
    have hfull := jsSubstring_full (a :: (mid ++ [b]))
    rw [show (a :: (mid ++ [b])).length = mid.length + 1 + 1 from by simp] at hfull
    exact hfull
  unfold sanitizeJSON
  rw [if_neg hne]
  simp only [h1, h2, h3, h4, hstart, hend, ht0, ht1, hpos, if_true,
    bne_self_eq_false, decide_True, Bool.true_and, Bool.and_true, if_pos hpos]
  have htick : ((0 : Int) != -1) = true := by decide
  rcases ha with h | h <;> subst h <;> simp [htick, hsub]


/-- `sanitizeJSON` is the identity on the serialization of every fence-free
composite document. -/
theorem sanitizeJSON_stringify (d : JsValue) (hc : isComposite d = true)
    (hff : fenceFree d = true) :
    sanitizeJSON (stringifyStr d) = .ok (stringifyStr d) := by
  have hntt := ntt_stringify d hff
  cases d with
  | null => simp [isComposite] at hc
  | bool b => simp [isComposite] at hc
  | num n => simp [isComposite] at hc
  | str s => simp [isComposite] at hc
  | obj fs =>
    have hshape : jsonStringify (.obj fs)
        = '\x7b' :: (stringifyFields fs ++ ['\x7d']) := by
      simp [jsonStringify]
    rw [show stringifyStr (.obj fs) = String.mk (jsonStringify (.obj fs)) from rfl,
      hshape]
    rw [hshape] at hntt
    exact sanitizeJSON_sandwich _ _ _ (Or.inl rfl) (Or.inl rfl) hntt
  | arr xs =>
    have hshape : jsonStringify (.arr xs)
        = '[' :: (stringifyElems xs ++ [']']) := by
      simp [jsonStringify]
    rw [show stringifyStr (.arr xs) = String.mk (jsonStringify (.arr xs)) from rfl,
      hshape]
    rw [hshape] at hntt
    exact sanitizeJSON_sandwich _ _ _ (Or.inr rfl) (Or.inr rfl) hntt

/-- C8 (amended): re-serializing a composite Recovered Document with distinct
object keys and passing the text back through stage 1 of the Recovery Layer
(sanitizeJSON then JSON.parse) succeeds and yields the same document, provided
none of its strings contains a run of three backticks; the sanitizer passes
such text through unchanged and the parse inverts the serialization. Without
the fence-free proviso the round trip can fail, because the sanitizer
destroys markdown-fence substrings inside string literals. -/
theorem stage1_roundtrip_fence_free (d : JsValue) (hc : isComposite d = true)
    (hwf : wfDoc d = true) (hff : fenceFree d = true) :
    stage1 (stringifyStr d) = .ok d := by
  unfold stage1
  rw [sanitizeJSON_stringify d hc hff]
  have hp : parseJsonStr (stringifyStr d) = some d := by
    rw [show parseJsonStr (stringifyStr d) = parseJsonChars (jsonStringify d) from rfl]
    exact parseJsonChars_stringify d hwf
  simp only [hp]

/-- Witness for the amended round trip at the document `{"a":1}`. -/
theorem stage1_roundtrip_fence_free_witness :
    isComposite (JsValue.obj [("a", JsValue.num 1)]) = true
    ∧ wfDoc (JsValue.obj [("a", JsValue.num 1)]) = true
    ∧ fenceFree (JsValue.obj [("a", JsValue.num 1)]) = true
    ∧ stage1 (stringifyStr (JsValue.obj [("a", JsValue.num 1)]))
        = .ok (JsValue.obj [("a", JsValue.num 1)]) :=
  ⟨rfl, rfl, rfl, stage1_roundtrip_fence_free (JsValue.obj [("a", JsValue.num 1)])
    rfl rfl rfl⟩

/-- Counterexample to the original round-trip claim: stage 1 itself recovers
the document `{"a":"```json"}` from a raw output that spells
the backticks as unicode escapes, but re-serializing that document and passing
it back through stage 1 yields a different document — the sanitizer strips
the literal fence out of the string body. -/
theorem roundtrip_fails_on_fenced_string :
    stage1 "\x7b\"a\":\"\\u0060\\u0060\\u0060json\"\x7d"
        = .ok (JsValue.obj [("a", JsValue.str "\x60\x60\x60json")])
    ∧ stage1 (stringifyStr (JsValue.obj [("a", JsValue.str "\x60\x60\x60json")]))
        = .ok (JsValue.obj [("a", JsValue.str "")])
    ∧ JsValue.obj [("a", JsValue.str "\x60\x60\x60json")]
        ≠ JsValue.obj [("a", JsValue.str "")] := by
  refine ⟨rfl, rfl, by simp⟩

end Buggu
